import Mathlib

/-!
Verification development for the corporate-text-pipeline repository.

The two core components are embedded from the source:

* `src/processors/parser.py` — `TenKParser._extract_section`, the two-phase
  section-boundary resolver, together with the start/end regex pattern
  tables (`SECTION_PATTERNS`, `SECTION_END_PATTERNS`) and `parse_file` /
  `parse_batch`.
* `src/processors/text_cleaner.py` — `TextCleaner.clean`, the staged
  text-normalization pipeline, with its regex tables.

Text is modelled as `List Char`.  Each Python regex used by the code is
embedded as a dedicated deterministic matcher built from a small set of
combinators; every matcher definition carries a doc comment quoting the
regex it implements.  The patterns involved use greedy repetition only in
positions where the repeated character class is disjoint from the first
character of the following part of the pattern, so the greedy
no-backtracking matchers below compute exactly the Python (leftmost,
greedy, backtracking) match; the few places where Python would backtrack
(`\s*\n+\s*`, `\d{1,2}`, trailing `\s*$`) get dedicated combinators whose
doc comments explain the equivalence.
-/

set_option maxRecDepth 4000000

namespace CorpText

/-- ASCII whitespace, as matched by Python's `\s` (` `, `\t`, `\n`, `\r`,
`\x0b`, `\x0c`); the repository only processes ASCII-rendered filings. -/
def isWs (c : Char) : Bool :=
  c = ' ' || c = '\t' || c = '\n' || c = '\r' || c = '\x0b' || c = '\x0c'

/-- Python's `\d` (ASCII digits). -/
def isDigit (c : Char) : Bool := '0' ≤ c && c ≤ '9'

/-- Python's `\w` (ASCII letters, digits, underscore). -/
def isWordChar (c : Char) : Bool :=
  isDigit c || ('a' ≤ c && c ≤ 'z') || ('A' ≤ c && c ≤ 'Z') || c = '_'

/-- ASCII lower-casing, modelling Python `str.lower` on the ASCII texts the
pipeline processes. -/
def lowerChar (c : Char) : Char :=
  if 'A' ≤ c && c ≤ 'Z' then Char.ofNat (c.toNat + 32) else c

/-- Python `str.strip()` (on ASCII whitespace). -/
def stripStr (s : List Char) : List Char :=
  ((s.dropWhile fun c => isWs c).reverse.dropWhile fun c => isWs c).reverse

/-- Tail-recursive list length (Python `len`), with `strLen_eq` relating it
to `List.length`. -/
def strLenAux : List Char → Nat → Nat
  | [], n => n
  | _ :: l, n => strLenAux l (n + 1)

/-- Python `len` on text. -/
def strLen (s : List Char) : Nat := strLenAux s 0

/-- Tail-recursive character-list equality test, with soundness lemma
`eq_of_beqChars`. -/
def beqChars : List Char → List Char → Bool
  | [], [] => true
  | a :: as, b :: bs => if a = b then beqChars as bs else false
  | _, _ => false

/-- Equality test on optional texts. -/
def beqOptChars : Option (List Char) → Option (List Char) → Bool
  | none, none => true
  | some a, some b => beqChars a b
  | _, _ => false

/-- Python `text[a:b]`. -/
def slice (s : List Char) (a b : Nat) : List Char := (s.drop a).take (b - a)

/-! ### Matcher combinators

A `Matcher` tries to match a regex at the head of the input; on success it
returns the number of characters consumed and the remaining suffix. -/

abbrev Matcher := List Char → Option (Nat × List Char)

/-- Literal string (the parser's patterns run over the lower-cased text, so
literal comparison is exact there; the cleaner's case-insensitive literals
use `mlitCI`). -/
def mlit : List Char → Matcher
  | [], s => some (0, s)
  | _ :: _, [] => none
  | p :: ps, c :: cs => if c = p then (mlit ps cs).map (fun r => (r.1 + 1, r.2)) else none

/-- Case-insensitive literal (for `re.IGNORECASE` patterns run over the
original text); the literal is given lower-cased. -/
def mlitCI : List Char → Matcher
  | [], s => some (0, s)
  | _ :: _, [] => none
  | p :: ps, c :: cs =>
    if lowerChar c = p then (mlitCI ps cs).map (fun r => (r.1 + 1, r.2)) else none

/-- A single character of a class. -/
def mchar (p : Char → Bool) : Matcher
  | [] => none
  | c :: cs => if p c then some (1, cs) else none

/-- Length of the maximal head run of characters in a class. -/
def runLen (p : Char → Bool) : List Char → Nat
  | [] => 0
  | c :: cs => if p c then runLen p cs + 1 else 0

/-- Greedy `X*` for a character class `X`.  Faithful to Python whenever the
following pattern part cannot start with a class character. -/
def mstar (p : Char → Bool) : Matcher := fun s =>
  let k := runLen p s
  some (k, s.drop k)

/-- Greedy `X+` for a character class `X`, same proviso as `mstar`. -/
def mplus (p : Char → Bool) : Matcher := fun s =>
  let k := runLen p s
  if k = 0 then none else some (k, s.drop k)

/-- Optional single character `X?` (greedy).  Faithful whenever taking the
character cannot break the rest of the match (true at every use site: the
optional character class is disjoint from what the following part accepts). -/
def mopt (p : Char → Bool) : Matcher
  | [] => some (0, [])
  | c :: cs => if p c then some (1, cs) else some (0, c :: cs)

/-- Sequencing. -/
def mseq (m1 m2 : Matcher) : Matcher := fun s =>
  match m1 s with
  | some (k1, r1) =>
    match m2 r1 with
    | some (k2, r2) => some (k1 + k2, r2)
    | none => none
  | none => none

/-- Ordered alternation (Python tries the left alternative first). -/
def malt (m1 m2 : Matcher) : Matcher := fun s =>
  match m1 s with
  | some r => some r
  | none => m2 s

/-- `\s*\n+\s*` followed by a non-whitespace part: Python's backtracking
makes this consume exactly the maximal whitespace run, succeeding iff that
run contains at least one newline. -/
def mwsNl : Matcher := fun s =>
  let k := runLen (fun c => isWs c) s
  if (s.take k).contains '\n' then some (k, s.drop k) else none

/-! ### Searching and match iteration -/

/-- `re.search` semantics: the leftmost position (≥ the running index `i`)
where the matcher succeeds; returns `(start, stop)` offsets.  Our patterns
never match the empty string at the end of input, so not trying the final
empty suffix is faithful. -/
def searchAux (m : Matcher) : List Char → Nat → Option (Nat × Nat)
  | [], _ => none
  | c :: rest, i =>
    match m (c :: rest) with
    | some (k, _) => some (i, i + k)
    | none => searchAux m rest (i + 1)

/-- `re.finditer` semantics: leftmost non-overlapping matches, scanning
resumes at each match's end.  `skip` counts positions still covered by the
previous match.  (Our patterns never match the empty string, so the
`k = 0` case is unreachable.) -/
def finditerAux (m : Matcher) : List Char → Nat → Nat → List (Nat × Nat)
  | [], _, _ => []
  | c :: rest, i, skip =>
    match skip with
    | s + 1 => finditerAux m rest (i + 1) s
    | 0 =>
      match m (c :: rest) with
      | some (k, _) => (i, i + k) :: finditerAux m rest (i + 1) (k - 1)
      | none => finditerAux m rest (i + 1) 0

/-- All matches of `m` in `s`, as `(start, stop)` offset pairs. -/
def finditer (m : Matcher) (s : List Char) : List (Nat × Nat) := finditerAux m s 0 0

/-! ### The parser's pattern tables (`parser.py` lines 34–74)

The parser runs every pattern over `text.lower()` with `re.IGNORECASE`,
which on the lower-cased text is plain matching of the lower-case literals. -/

/-- The class `[\.\:\s]`. -/
def clsDotColonWs (c : Char) : Bool := c = '.' || c = ':' || isWs c

/-- The class `[\.\s]`. -/
def clsDotWs (c : Char) : Bool := c = '.' || isWs c

/-- The class `[\-\—]` (hyphen or em dash). -/
def clsDash (c : Char) : Bool := c = '-' || c = '—'

/-- `item\s*1[\.\:\s]+` (first alternative of the main item-1 start pattern). -/
def pItem1Head : Matcher :=
  mseq (mlit "item".toList) (mseq (mstar isWs) (mseq (mlit "1".toList) (mplus clsDotColonWs)))

/-- `item\s*1\s*[\-\—]\s*` (second alternative of the main item-1 start pattern). -/
def pItem1Dash : Matcher :=
  mseq (mlit "item".toList) (mseq (mstar isWs)
    (mseq (mlit "1".toList) (mseq (mstar isWs) (mseq (mchar clsDash) (mstar isWs)))))

/-- `(?:business|description\s+of\s+business)`. -/
def pTailBusiness : Matcher :=
  malt (mlit "business".toList)
    (mseq (mlit "description".toList) (mseq (mplus isWs)
      (mseq (mlit "of".toList) (mseq (mplus isWs) (mlit "business".toList)))))

/-- `(?:item\s*1[\.\:\s]+|item\s*1\s*[\-\—]\s*)(?:business|description\s+of\s+business)`. -/
def patI1_0 : Matcher := malt (mseq pItem1Head pTailBusiness) (mseq pItem1Dash pTailBusiness)

/-- `>\s*item\s*1[\.\:\s]`. -/
def patI1_1 : Matcher :=
  mseq (mlit ">".toList) (mseq (mstar isWs) (mseq (mlit "item".toList)
    (mseq (mstar isWs) (mseq (mlit "1".toList) (mchar clsDotColonWs)))))

/-- `item\s*1[\.\s]+business`. -/
def patI1_2 : Matcher :=
  mseq (mlit "item".toList) (mseq (mstar isWs)
    (mseq (mlit "1".toList) (mseq (mplus clsDotWs) (mlit "business".toList))))

/-- `item\s+1\s*\n+\s*business`. -/
def patI1_3 : Matcher :=
  mseq (mlit "item".toList) (mseq (mplus isWs)
    (mseq (mlit "1".toList) (mseq mwsNl (mlit "business".toList))))

/-- `part\s+i\s*\n+\s*item\s*1`. -/
def patI1_4 : Matcher :=
  mseq (mlit "part".toList) (mseq (mplus isWs) (mseq (mlit "i".toList)
    (mseq mwsNl (mseq (mlit "item".toList) (mseq (mstar isWs) (mlit "1".toList))))))

/-- `item\s*1a[\.\:\s]+`. -/
def pItem1aHead : Matcher :=
  mseq (mlit "item".toList) (mseq (mstar isWs) (mseq (mlit "1a".toList) (mplus clsDotColonWs)))

/-- `item\s*1a\s*[\-\—]\s*`. -/
def pItem1aDash : Matcher :=
  mseq (mlit "item".toList) (mseq (mstar isWs)
    (mseq (mlit "1a".toList) (mseq (mstar isWs) (mseq (mchar clsDash) (mstar isWs)))))

/-- `(?:risk\s*factors?)`. -/
def pTailRisk : Matcher :=
  mseq (mlit "risk".toList) (mseq (mstar isWs)
    (mseq (mlit "factor".toList) (mopt (fun c => c = 's'))))

/-- `(?:item\s*1a[\.\:\s]+|item\s*1a\s*[\-\—]\s*)(?:risk\s*factors?)`. -/
def patI1a_0 : Matcher := malt (mseq pItem1aHead pTailRisk) (mseq pItem1aDash pTailRisk)

/-- `>\s*item\s*1a[\.\:\s]`. -/
def patI1a_1 : Matcher :=
  mseq (mlit ">".toList) (mseq (mstar isWs) (mseq (mlit "item".toList)
    (mseq (mstar isWs) (mseq (mlit "1a".toList) (mchar clsDotColonWs)))))

/-- `item\s*1a[\.\s]+risk`. -/
def patI1a_2 : Matcher :=
  mseq (mlit "item".toList) (mseq (mstar isWs)
    (mseq (mlit "1a".toList) (mseq (mplus clsDotWs) (mlit "risk".toList))))

/-- `item\s+1a\s*\n+\s*risk`. -/
def patI1a_3 : Matcher :=
  mseq (mlit "item".toList) (mseq (mplus isWs)
    (mseq (mlit "1a".toList) (mseq mwsNl (mlit "risk".toList))))

/-- `item\s*7[\.\:\s]+`. -/
def pItem7Head : Matcher :=
  mseq (mlit "item".toList) (mseq (mstar isWs) (mseq (mlit "7".toList) (mplus clsDotColonWs)))

/-- `item\s*7\s*[\-\—]\s*`. -/
def pItem7Dash : Matcher :=
  mseq (mlit "item".toList) (mseq (mstar isWs)
    (mseq (mlit "7".toList) (mseq (mstar isWs) (mseq (mchar clsDash) (mstar isWs)))))

/-- `(?:management|md&a|discussion)`. -/
def pTail7 : Matcher :=
  malt (mlit "management".toList) (malt (mlit "md&a".toList) (mlit "discussion".toList))

/-- `(?:item\s*7[\.\:\s]+|item\s*7\s*[\-\—]\s*)(?:management|md&a|discussion)`. -/
def patI7_0 : Matcher := malt (mseq pItem7Head pTail7) (mseq pItem7Dash pTail7)

/-- `>\s*item\s*7[\.\:\s]`. -/
def patI7_1 : Matcher :=
  mseq (mlit ">".toList) (mseq (mstar isWs) (mseq (mlit "item".toList)
    (mseq (mstar isWs) (mseq (mlit "7".toList) (mchar clsDotColonWs)))))

/-- `item\s*7[\.\s]+management`. -/
def patI7_2 : Matcher :=
  mseq (mlit "item".toList) (mseq (mstar isWs)
    (mseq (mlit "7".toList) (mseq (mplus clsDotWs) (mlit "management".toList))))

/-- `item\s+7\s*\n+\s*management`. -/
def patI7_3 : Matcher :=
  mseq (mlit "item".toList) (mseq (mplus isWs)
    (mseq (mlit "7".toList) (mseq mwsNl (mlit "management".toList))))

/-- The apostrophe character. -/
def apos : Char := Char.ofNat 39

/-- `item\s*7[\.\s]+management'?s?\s+discussion`. -/
def patI7_4 : Matcher :=
  mseq (mlit "item".toList) (mseq (mstar isWs) (mseq (mlit "7".toList)
    (mseq (mplus clsDotWs) (mseq (mlit "management".toList)
      (mseq (mopt (fun c => c = apos)) (mseq (mopt (fun c => c = 's'))
        (mseq (mplus isWs) (mlit "discussion".toList))))))))

/-- An end-boundary pattern `\n\s*item\s*NUM[\.\:\s]+` for a given item tag. -/
def endPat (tag : List Char) : Matcher :=
  mseq (mlit "\n".toList) (mseq (mstar isWs) (mseq (mlit "item".toList)
    (mseq (mstar isWs) (mseq (mlit tag) (mplus clsDotColonWs)))))

/-- `\n\s*item\s*\d` — the relaxed any-item end marker used by Phase 2
(parser.py line 262). -/
def patAnyItem : Matcher :=
  mseq (mlit "\n".toList) (mseq (mstar isWs) (mseq (mlit "item".toList)
    (mseq (mstar isWs) (mchar isDigit))))

/-- The three target sections. -/
inductive Sec
  | item1
  | item1a
  | item7
deriving DecidableEq

/-- `SECTION_PATTERNS` (parser.py lines 34–55), in source order. -/
def startPatterns : Sec → List Matcher
  | .item1 => [patI1_0, patI1_1, patI1_2, patI1_3, patI1_4]
  | .item1a => [patI1a_0, patI1a_1, patI1a_2, patI1a_3]
  | .item7 => [patI7_0, patI7_1, patI7_2, patI7_3, patI7_4]

/-- `SECTION_END_PATTERNS` (parser.py lines 60–74), in source order. -/
def endPatterns : Sec → List Matcher
  | .item1 => [endPat "1a".toList, endPat "1b".toList, endPat "2".toList]
  | .item1a => [endPat "1b".toList, endPat "2".toList]
  | .item7 => [endPat "7a".toList, endPat "8".toList]

/-! ### `_extract_section` (parser.py lines 196–271) -/

/-- The candidate list: all start-pattern matches over the lower-cased text,
collected pattern by pattern (parser.py lines 210–213). -/
def candidatesOf (textLower : List Char) (sec : Sec) : List (Nat × Nat) :=
  ((startPatterns sec).map (fun p => finditer p textLower)).flatten

/-- The descending stable sort by match start used at parser.py line 221
(`candidates.sort(key=lambda m: m.start(), reverse=True)`); Python's sort is
stable, and stable insertion with `candLE a b := b.1 ≤ a.1` computes the
same list. -/
def candLE (a b : Nat × Nat) : Prop := b.1 ≤ a.1

instance : DecidableRel candLE := fun a b => Nat.decLe b.1 a.1

instance : IsTotal (Nat × Nat) candLE := ⟨fun a b => Nat.le_total b.1 a.1⟩

instance : IsTrans (Nat × Nat) candLE := ⟨fun _ _ _ h1 h2 => Nat.le_trans h2 h1⟩

/-- Stable descending sort of the candidate list by start offset. -/
def sortDesc (l : List (Nat × Nat)) : List (Nat × Nat) := l.insertionSort candLE

/-- Tail-recursive scan for the first index `≥ i` holding character `t`. -/
def findCharAux (t : Char) : List Char → Nat → Option Nat
  | [], _ => none
  | c :: rest, i => if c = t then some i else findCharAux t rest (i + 1)

/-- Python `text.find('\n', sp)` (parser.py line 228), `none` for `-1`. -/
def findNlFrom (text : List Char) (sp : Nat) : Option Nat :=
  findCharAux '\n' (text.drop sp) sp

/-- Lines 224–231: the span start is the match's end offset; if a newline
occurs within 200 characters after it, the start advances past the newline. -/
def adjustStart (text : List Char) (matchEnd : Nat) : Nat :=
  match findNlFrom text matchEnd with
  | some nl => if nl - matchEnd < 200 then nl + 1 else matchEnd
  | none => matchEnd

/-- Lines 233–241: try the section's end patterns in order over
`text_lower[start_pos:]`; the first pattern whose leftmost match starts more
than 500 characters in wins; otherwise the end defaults to the document
length. -/
def findEnd (tl : List Char) (sp : Nat) (pats : List Matcher) (docLen : Nat) : Nat :=
  match pats with
  | [] => docLen
  | p :: rest =>
    match searchAux p tl 0 with
    | some (st, _) => if 500 < st then sp + st else findEnd tl sp rest docLen
    | none => findEnd tl sp rest docLen

/-- Lines 243–248 (and 266–268): accept the span iff its raw length reaches
the minimum section length, returning the stripped text. -/
def acceptSpan (minLen : Nat) (text : List Char) (sp ep : Nat) : Option (List Char) :=
  let sectionText := slice text sp ep
  if minLen ≤ strLen sectionText then some (stripStr sectionText) else none

/-- One Phase-1 attempt (the body of the loop at lines 223–248) for a single
candidate match `(start, stop)`. -/
def tryCandidate (minLen : Nat) (text textLower : List Char) (sec : Sec)
    (m : Nat × Nat) : Option (List Char) :=
  let sp := adjustStart text m.2
  let ep := findEnd (textLower.drop sp) sp (endPatterns sec) (strLen text)
  acceptSpan minLen text sp ep

/-- First success of `f` along a list (the early `return` in the loop). -/
def firstSome (f : α → Option β) : List α → Option β
  | [] => none
  | a :: l =>
    match f a with
    | some b => some b
    | none => firstSome f l

/-- Phase 1 (lines 219–248): candidates in descending start order, first
acceptable span wins. -/
def phase1 (minLen : Nat) (text textLower : List Char) (sec : Sec)
    (cands : List (Nat × Nat)) : Option (List Char) :=
  firstSome (tryCandidate minLen text textLower sec) (sortDesc cands)

/-- Python `min(candidates, key=lambda m: m.start())` — the first candidate
with the smallest start offset (line 252). -/
def minByStart : List (Nat × Nat) → Option (Nat × Nat)
  | [] => none
  | a :: l =>
    match minByStart l with
    | none => some a
    | some b => some (if b.1 < a.1 then b else a)

/-- Lines 261–264: relaxed end for Phase 2 — the first any-item marker, used
only if it starts more than 500 characters in; otherwise the document end. -/
def relaxedEnd (docLen sp : Nat) (tl : List Char) : Nat :=
  match searchAux patAnyItem tl 0 with
  | some (st, _) => if 500 < st then sp + st else docLen
  | none => docLen

/-- Phase 2 (lines 250–268): earliest candidate, same line-skip adjustment,
relaxed end marker, same minimum-length acceptance. -/
def phase2 (minLen : Nat) (text textLower : List Char)
    (cands : List (Nat × Nat)) : Option (List Char) :=
  match minByStart cands with
  | none => none
  | some m =>
    let sp := adjustStart text m.2
    let ep := relaxedEnd (strLen text) sp (textLower.drop sp)
    acceptSpan minLen text sp ep

/-- `_extract_section` (parser.py lines 196–271). -/
def extractSection (minLen : Nat) (text : List Char) (sec : Sec) : Option (List Char) :=
  let textLower := text.map lowerChar
  let cands := candidatesOf textLower sec
  if cands = [] then none
  else
    match phase1 minLen text textLower sec cands with
    | some r => some r
    | none => phase2 minLen text textLower cands

/-! ### `parse_file` and `parse_batch` (parser.py lines 143–194, 273–309)

The HTML rendering (`BeautifulSoup(...).get_text`) is an excluded external
collaborator; a `Document` here is the rendered plain text.  An input of
`none` models the unreadable-document case: the missing-file early return
(lines 158–160) and the catch-all exception handler (lines 192–194), both
of which return the all-`None` section dictionary. -/

/-- One replacement pass for the whitespace tidy-up at parser.py lines
177–178: a run of at least `thr` copies of `t` is replaced by `rep` copies,
shorter runs are kept.  `fuel` bounds the iteration (the scan consumes at
least one character per step, so `strLen s` suffices). -/
def collapseRunAux (t : Char) (thr rep : Nat) : Nat → List Char → List Char
  | 0, s => s
  | _ + 1, [] => []
  | fuel + 1, c :: rest =>
    if c = t then
      let k := runLen (fun d => d = t) (c :: rest)
      (if thr ≤ k then List.replicate rep t else List.replicate k t) ++
        collapseRunAux t thr rep fuel ((c :: rest).drop k)
    else c :: collapseRunAux t thr rep fuel rest

/-- `re.sub(r'\n{4,}', '\n\n\n', text)` (parser.py line 177). -/
def collapseNl4 (s : List Char) : List Char := collapseRunAux '\n' 4 3 (strLen s) s

/-- `re.sub(r' {3,}', '  ', text)` (parser.py line 178). -/
def collapseSp3 (s : List Char) : List Char := collapseRunAux ' ' 3 2 (strLen s) s

/-- The per-document result dictionary of `parse_file`. -/
structure SectionResults where
  item1 : Option (List Char)
  item1a : Option (List Char)
  item7 : Option (List Char)
deriving DecidableEq

/-- `parse_file` (parser.py lines 143–194) over an already-rendered
document; `none` is the unreadable case (missing file / IO / decode
failure), which returns the all-`None` dictionary (lines 160 and 194). -/
def parseFile (minLen : Nat) (input : Option (List Char)) : SectionResults :=
  match input with
  | none => ⟨none, none, none⟩
  | some raw =>
    let text := collapseSp3 (collapseNl4 raw)
    ⟨extractSection minLen text .item1, extractSection minLen text .item1a,
      extractSection minLen text .item7⟩

/-- One row of the `parse_batch` result frame (parser.py lines 297–307). -/
structure BatchEntry where
  item1Length : Nat
  item1aLength : Nat
  item7Length : Nat
  item1Success : Bool
  item1aSuccess : Bool
  item7Success : Bool
  allSections : Bool
deriving DecidableEq

/-- The record built for one document (parser.py lines 297–307). -/
def entryOf (r : SectionResults) : BatchEntry :=
  ⟨(r.item1.map strLen).getD 0, (r.item1a.map strLen).getD 0, (r.item7.map strLen).getD 0,
    r.item1.isSome, r.item1a.isSome, r.item7.isSome,
    r.item1.isSome && r.item1a.isSome && r.item7.isSome⟩

/-- `parse_batch` (parser.py lines 273–309): each document is parsed
independently and contributes one result row (saving files is external
I/O). -/
def parseBatch (minLen : Nat) (docs : List (Option (List Char))) : List BatchEntry :=
  docs.map (fun d => entryOf (parseFile minLen d))

/-! ### The text cleaner (`text_cleaner.py`)

All cleaner regexes carry `re.IGNORECASE` where the source sets it, hence
the `mlitCI` case-insensitive literals.  `re.sub` is embedded by `reSub`
(plain) and `reSubML` (for the two `re.MULTILINE` `^...$` patterns). -/

/-- `re.sub(pattern, repl, s)`: scan left to right, replace each leftmost
non-overlapping match.  `fuel` bounds the scan; every step consumes at
least one character, so `strLen s` suffices.  (None of the substituted
patterns can match the empty string.) -/
def subAll (m : Matcher) (repl : List Char) : Nat → List Char → List Char
  | 0, s => s
  | _ + 1, [] => []
  | fuel + 1, c :: rest =>
    match m (c :: rest) with
    | some (k, suffix) =>
      if k = 0 then c :: subAll m repl fuel rest
      else repl ++ subAll m repl fuel suffix
    | none => c :: subAll m repl fuel rest

/-- `re.sub` with fuel instantiated. -/
def reSub (m : Matcher) (repl : List Char) (s : List Char) : List Char :=
  subAll m repl (strLen s) s

/-- Whether the last character consumed by a match of length `k` from `s`
is a newline (determines whether scanning resumes at a line start). -/
def lastIsNl (s : List Char) (k : Nat) : Bool :=
  match (s.drop (k - 1)).head? with
  | some c => c = '\n'
  | none => false

/-- `re.sub` under `re.MULTILINE` for patterns anchored `^...$`: the matcher
is attempted only at line-start positions. -/
def subML (m : Matcher) (repl : List Char) : Nat → Bool → List Char → List Char
  | 0, _, s => s
  | _ + 1, _, [] => []
  | fuel + 1, atLS, c :: rest =>
    if atLS then
      match m (c :: rest) with
      | some (k, suffix) =>
        if k = 0 then c :: subML m repl fuel (c = '\n') rest
        else repl ++ subML m repl fuel (lastIsNl (c :: rest) k) suffix
      | none => c :: subML m repl fuel (c = '\n') rest
    else c :: subML m repl fuel (c = '\n') rest

/-- Multiline `re.sub` with fuel instantiated; a scan starts at a line
start. -/
def reSubML (m : Matcher) (repl : List Char) (s : List Char) : List Char :=
  subML m repl (strLen s) true s

/-- ASCII letter (the class `[a-z]` under `re.IGNORECASE`). -/
def isLetter (c : Char) : Bool := 'a' ≤ lowerChar c && lowerChar c ≤ 'z'

/-- `&nbsp;?` (HTML_PATTERNS, text_cleaner.py line 40). -/
def patNbsp : Matcher := mseq (mlitCI "&nbsp".toList) (mopt (fun c => c = ';'))

/-- `&[a-z]+;` (line 41). -/
def patEntity : Matcher :=
  mseq (mlitCI "&".toList) (mseq (mplus isLetter) (mlitCI ";".toList))

/-- `<[^>]+>` (line 42). -/
def patTag : Matcher :=
  mseq (mlitCI "<".toList) (mseq (mplus (fun c => !(c = '>'))) (mlitCI ">".toList))

/-- `_remove_html_artifacts` (lines 108–112): each HTML pattern replaced by
a single space, in table order. -/
def removeHtmlArtifacts (s : List Char) : List Char :=
  reSub patTag [' '] (reSub patEntity [' '] (reSub patNbsp [' '] s))

/-- `table\s+of\s+contents` (BOILERPLATE_PATTERNS, line 32). -/
def patTocBp : Matcher :=
  mseq (mlitCI "table".toList) (mseq (mplus isWs)
    (mseq (mlitCI "of".toList) (mseq (mplus isWs) (mlitCI "contents".toList))))

/-- `page\s+\d+\s+of\s+\d+` (line 33). -/
def patPageOf : Matcher :=
  mseq (mlitCI "page".toList) (mseq (mplus isWs) (mseq (mplus isDigit)
    (mseq (mplus isWs) (mseq (mlitCI "of".toList) (mseq (mplus isWs) (mplus isDigit))))))

/-- `\d+\s*\n\s*table\s+of\s+contents` (line 34); `\s*\n\s*` is a
whitespace run containing a newline (see `mwsNl`). -/
def patNumToc : Matcher := mseq (mplus isDigit) (mseq mwsNl patTocBp)

/-- `(?:exhibit|schedule)\s+index` (line 35). -/
def patExhibit : Matcher :=
  mseq (malt (mlitCI "exhibit".toList) (mlitCI "schedule".toList))
    (mseq (mplus isWs) (mlitCI "index".toList))

/-- `_remove_boilerplate` (lines 114–118): each pattern replaced by the
empty string, in table order. -/
def removeBoilerplate (s : List Char) : List Char :=
  reSub patExhibit [] (reSub patNumToc [] (reSub patPageOf [] (reSub patTocBp [] s)))

/-- `\d+\s+` (one group of the table-row indicator). -/
def mDigitWsGroup : Matcher := mseq (mplus isDigit) (mplus isWs)

/-- `(\d+\s+){3,}`: for `re.search` existence it suffices to find three
consecutive digit-run/whitespace-run groups (extra repetitions do not
affect existence, and the runs are forced maximal because a digit run is
followed by whitespace and vice versa). -/
def patThreeDigitWs : Matcher := mseq mDigitWsGroup (mseq mDigitWsGroup mDigitWsGroup)

/-- `\.{3,}` (three consecutive dots witness the run). -/
def patDots3 : Matcher :=
  mseq (mchar (fun c => c = '.')) (mseq (mchar (fun c => c = '.')) (mchar (fun c => c = '.')))

/-- `\s{3,}` (three consecutive whitespace characters witness the run). -/
def patWs3 : Matcher := mseq (mchar isWs) (mseq (mchar isWs) (mchar isWs))

/-- `(\.{3,}|\s{3,})`. -/
def patDotsOrWs : Matcher := malt patDots3 patWs3

/-- `re.search(pattern, s)` truthiness. -/
def containsMatch (m : Matcher) (s : List Char) : Bool := (searchAux m s 0).isSome

/-- The class `[^\w\s]` counted by `re.findall` at line 138. -/
def isPunct (c : Char) : Bool := !(isWordChar c) && !(isWs c)

/-- Tail-recursive count of `[^\w\s]` characters. -/
def countPunctAux : List Char → Nat → Nat
  | [], n => n
  | c :: rest, n => countPunctAux rest (if isPunct c then n + 1 else n)

/-- `len(re.findall(r'[^\w\s]', line))`. -/
def countPunct (s : List Char) : Nat := countPunctAux s 0

/-- The three skip conditions of `_remove_tables` (lines 133–139).  The
ratio test `count > len(line) * 0.4` is modelled by the exact comparison
`5 * count > 2 * len`; for every line shorter than `2^50` characters the
Python float computation decides exactly the same inequality (the float
product lies strictly between the same consecutive integers). -/
def tableRowLike (line : List Char) : Bool :=
  containsMatch patThreeDigitWs line
    || (containsMatch patDotsOrWs line && line.any isDigit)
    || decide (2 * strLen line < 5 * countPunct line)

/-- Python `text.split('\n')` (keeps empty pieces). -/
def splitNlAux : List Char → List Char → List (List Char)
  | [], acc => [acc.reverse]
  | c :: rest, acc =>
    if c = '\n' then acc.reverse :: splitNlAux rest [] else splitNlAux rest (c :: acc)

/-- `text.split('\n')`. -/
def splitNl (s : List Char) : List (List Char) := splitNlAux s []

/-- Python `sep.join(pieces)`. -/
def joinSep (sep : List Char) : List (List Char) → List Char
  | [] => []
  | [l] => l
  | l :: l2 :: ls => l ++ sep ++ joinSep sep (l2 :: ls)

/-- The line-filtering loop of `_remove_tables` (lines 131–141). -/
def keepLines : List (List Char) → List (List Char)
  | [] => []
  | l :: ls => if tableRowLike l then keepLines ls else l :: keepLines ls

/-- `_remove_tables` (lines 120–143). -/
def removeTables (s : List Char) : List Char := joinSep ['\n'] (keepLines (splitNl s))

/-- The trailing `\s*$` of a `re.MULTILINE` pattern: greedily consume
whitespace, stopping where the next character is a newline or the input
ends; Python's backtracking selects the longest such stop, computed here
directly. -/
def dollarStop : List Char → Option Nat
  | [] => some 0
  | c :: rest =>
    if c = '\n' then
      match dollarStop rest with
      | some j => some (j + 1)
      | none => some 0
    else if isWs c then
      match dollarStop rest with
      | some j => some (j + 1)
      | none => none
    else none

/-- `\s*$` as a matcher. -/
def mDollarWs : Matcher := fun s => (dollarStop s).map (fun j => (j, s.drop j))

/-- `^\s*\d+\s*$` (line 155), attempted at line starts by `reSubML`. -/
def patPageNum : Matcher := mseq (mstar isWs) (mseq (mplus isDigit) mDollarWs)

/-- `form\s+10-k` (line 158). -/
def patForm10K : Matcher :=
  mseq (mlitCI "form".toList) (mseq (mplus isWs) (mlitCI "10-k".toList))

/-- The month alternation of the date pattern (line 161), in source order
(no month name is a prefix of another, so ordered alternation is exact). -/
def mMonth : Matcher :=
  malt (mlitCI "january".toList) (malt (mlitCI "february".toList)
    (malt (mlitCI "march".toList) (malt (mlitCI "april".toList)
      (malt (mlitCI "may".toList) (malt (mlitCI "june".toList)
        (malt (mlitCI "july".toList) (malt (mlitCI "august".toList)
          (malt (mlitCI "september".toList) (malt (mlitCI "october".toList)
            (malt (mlitCI "november".toList) (mlitCI "december".toList)))))))))))

/-- `\d{4}`. -/
def m4Digits : Matcher :=
  mseq (mchar isDigit) (mseq (mchar isDigit) (mseq (mchar isDigit) (mchar isDigit)))

/-- `,?\s+\d{4}\s*$` (the part after the day).  `,?` cannot steal from
`\s+`, so the greedy option is exact. -/
def mDateTail : Matcher :=
  mseq (mopt (fun c => c = ',')) (mseq (mplus isWs) (mseq m4Digits mDollarWs))

/-- `^\s*(?:january|...|december)\s+\d{1,2},?\s+\d{4}\s*$` (lines 161–162);
`\d{1,2}` is greedy with backtracking: two digits are tried first, then
one. -/
def patDate : Matcher :=
  mseq (mstar isWs) (mseq mMonth (mseq (mplus isWs)
    (malt (mseq (mseq (mchar isDigit) (mchar isDigit)) mDateTail)
      (mseq (mchar isDigit) mDateTail))))

/-- `_remove_headers_footers` (lines 145–164): page-number lines, then
`form 10-k` occurrences, then date-only lines. -/
def removeHeadersFooters (s : List Char) : List Char :=
  reSubML patDate [] (reSub patForm10K [] (reSubML patPageNum [] s))

/-- `text.replace('\t', ' ')` (line 175). -/
def replaceTabs (s : List Char) : List Char :=
  s.map (fun c => if c = '\t' then ' ' else c)

/-- `re.sub(r' {2,}', ' ', text)` (line 178): every space run becomes a
single space (runs of length one are unchanged by this, so collapsing all
runs is the same function). -/
def collapseSpacesAux : Nat → List Char → List Char
  | 0, s => s
  | _ + 1, [] => []
  | fuel + 1, c :: rest =>
    if c = ' ' then
      let k := runLen (fun d => d = ' ') (c :: rest)
      ' ' :: collapseSpacesAux fuel ((c :: rest).drop k)
    else c :: collapseSpacesAux fuel rest

/-- `re.sub(r' {2,}', ' ', text)`. -/
def collapseSpaces (s : List Char) : List Char := collapseSpacesAux (strLen s) s

/-- The consecutive-empty-line limiter (lines 183–194); `cnt` is
`consecutive_empty`. -/
def limitEmpty (maxNl : Nat) : List (List Char) → Nat → List (List Char)
  | [], _ => []
  | l :: ls, cnt =>
    if l = [] then
      if cnt + 1 ≤ maxNl then [] :: limitEmpty maxNl ls (cnt + 1)
      else limitEmpty maxNl ls (cnt + 1)
    else l :: limitEmpty maxNl ls 0

/-- `_normalize_whitespace` (lines 166–196). -/
def normalizeWs (maxNl : Nat) (s : List Char) : List Char :=
  joinSep ['\n']
    (limitEmpty maxNl ((splitNl (collapseSpaces (replaceTabs s))).map stripStr) 0)

/-- The short-word allow-list (line 205). -/
def preserveWords : List (List Char) :=
  ["a", "i", "is", "it", "to", "or", "of", "in", "at", "by", "on", "if", "no", "we",
    "us"].map String.toList

/-- Python `text.split()`: split on whitespace runs, no empty tokens. -/
def splitWsAux : List Char → List Char → List (List Char)
  | [], acc => if acc = [] then [] else [acc.reverse]
  | c :: rest, acc =>
    if isWs c then
      if acc = [] then splitWsAux rest [] else acc.reverse :: splitWsAux rest []
    else splitWsAux rest (c :: acc)

/-- `text.split()`. -/
def splitWs (s : List Char) : List (List Char) := splitWsAux s []

/-- The word-filtering loop of `_filter_short_words` (lines 210–213). -/
def filterWordsAux (minW : Nat) : List (List Char) → List (List Char)
  | [] => []
  | w :: ws =>
    if minW ≤ strLen w || preserveWords.contains (w.map lowerChar) then
      w :: filterWordsAux minW ws
    else filterWordsAux minW ws

/-- `_filter_short_words` (lines 198–215). -/
def filterShortWords (minW : Nat) (s : List Char) : List Char :=
  joinSep [' '] (filterWordsAux minW (splitWs s))

/-- `CleaningConfiguration`: the `TextCleaner.__init__` toggles (lines
45–67). -/
structure CleanCfg where
  removeTablesOn : Bool
  removeHeadersOn : Bool
  normalizeWhitespaceOn : Bool
  minWordLength : Nat
  maxConsecutiveNewlines : Nat

/-- The constructor defaults (lines 47–51). -/
def defaultCfg : CleanCfg :=
  ⟨true, true, true, 2, 2⟩

/-- `TextCleaner.clean` (lines 69–106): the seven-stage pipeline. -/
def clean (cfg : CleanCfg) (text : List Char) : List Char :=
  if text = [] then []
  else
    let t1 := removeHtmlArtifacts text
    let t2 := removeBoilerplate t1
    let t3 := if cfg.removeTablesOn then removeTables t2 else t2
    let t4 := if cfg.removeHeadersOn then removeHeadersFooters t3 else t3
    let t5 := if cfg.normalizeWhitespaceOn then normalizeWs cfg.maxConsecutiveNewlines t4 else t4
    let t6 := filterShortWords cfg.minWordLength t5
    stripStr t6

/-! ### Definitions taken from the specification's words

These follow the spec sentence by sentence (not the code) and are compared
against the code-derived definitions above. -/

/-- Follows the claim's words for the per-candidate span start: set the
start to the candidate's offset (the position at which the start pattern
hit, i.e. the match's start), then apply the line-skip adjustment. -/
def claimStartPos (text : List Char) (m : Nat × Nat) : Nat := adjustStart text m.1

/-- Follows the amended wording for the span start: from a base offset,
advance just past the first line break occurring within 200 characters. -/
def specAdjustedStart (text : List Char) (s : Nat) : Nat :=
  match (text.drop s).findIdx? (fun c => c = '\n') with
  | some k => if k < 200 then s + k + 1 else s
  | none => s

/-- Follows the claim's words for Phase 1's end boundary: the nearest (=
smallest-offset) end-boundary-pattern match in the suffix, across all of
the section's end patterns. -/
def claimNearestEnd (tl : List Char) (pats : List Matcher) : Option Nat :=
  (pats.filterMap (fun p => (searchAux p tl 0).map (fun r => r.1))).min?

/-- Follows the claim's words for Phase 2's end boundary: the first
occurrence of any item-number marker at least 500 characters after the
start (a marker starting at or after offset 500 of the suffix), the
document end if none. -/
def claimRelaxedEnd (docLen sp : Nat) (tl : List Char) : Nat :=
  match searchAux patAnyItem (tl.drop 500) 500 with
  | some (st, _) => sp + st
  | none => docLen

/-- Follows the claim's words for the first table-row condition: the line
contains three or more runs of digits separated by whitespace (three digit
runs, two whitespace separators). -/
def SpecThreeRuns (l : List Char) : Prop :=
  ∃ a d1 w1 d2 w2 d3 b : List Char,
    l = a ++ d1 ++ w1 ++ d2 ++ w2 ++ d3 ++ b ∧
    d1 ≠ [] ∧ d2 ≠ [] ∧ d3 ≠ [] ∧ w1 ≠ [] ∧ w2 ≠ [] ∧
    (∀ c ∈ d1, isDigit c) ∧ (∀ c ∈ d2, isDigit c) ∧ (∀ c ∈ d3, isDigit c) ∧
    (∀ c ∈ w1, isWs c) ∧ (∀ c ∈ w2, isWs c)

/-- The amended first table-row condition: three or more digit runs, each
followed by whitespace (what `(\d+\s+){3,}` requires). -/
def CodeThreeRuns (l : List Char) : Prop :=
  ∃ a d1 w1 d2 w2 d3 w3 b : List Char,
    l = a ++ d1 ++ w1 ++ d2 ++ w2 ++ d3 ++ w3 ++ b ∧
    d1 ≠ [] ∧ d2 ≠ [] ∧ d3 ≠ [] ∧ w1 ≠ [] ∧ w2 ≠ [] ∧ w3 ≠ [] ∧
    (∀ c ∈ d1, isDigit c) ∧ (∀ c ∈ d2, isDigit c) ∧ (∀ c ∈ d3, isDigit c) ∧
    (∀ c ∈ w1, isWs c) ∧ (∀ c ∈ w2, isWs c) ∧ (∀ c ∈ w3, isWs c)

/-- A run of at least three dots somewhere in the line. -/
def Dots3Run (l : List Char) : Prop := ∃ a b : List Char, l = a ++ '.' :: '.' :: '.' :: b

/-- A run of at least three whitespace characters somewhere in the line. -/
def Ws3Run (l : List Char) : Prop :=
  ∃ (a b : List Char) (u v w : Char),
    l = a ++ u :: v :: w :: b ∧ isWs u ∧ isWs v ∧ isWs w

/-- Two consecutive space characters occur somewhere in the string. -/
def hasDoubleSpace : List Char → Bool
  | [] => false
  | [_] => false
  | a :: b :: rest => (a = ' ' && b = ' ') || hasDoubleSpace (b :: rest)

/-! ### Concrete documents used by the claims -/

/-- The table-of-contents line of the TOC-avoidance document (at offset
10). -/
def c1toc : List Char := "Item 1. Business ... 3\n".toList

/-- The real section header of the TOC-avoidance document (newline, header
at offset 50000, newline). -/
def c1hdr : List Char := "\nItem 1. Business\n".toList

/-- 2000 characters of section body (offsets 50017–52016). -/
def c1prose : List Char := List.replicate 2000 'q'

/-- The following item header ending the section (offset 52017). -/
def c1end : List Char := "\nItem 1A. Risk Factors\n".toList

/-- The TOC-avoidance document: a TOC line for item 1 at offset 10, the
real header at offset 50000, 2000 characters of body, then the item 1A
header. -/
def c1doc : List Char :=
  List.replicate 10 'x' ++ c1toc ++ List.replicate 49966 'x' ++ c1hdr ++ c1prose ++ c1end

/-- Lower-cased TOC line. -/
def c1tocL : List Char := "item 1. business ... 3\n".toList

/-- Lower-cased real header. -/
def c1hdrL : List Char := "\nitem 1. business\n".toList

/-- Lower-cased closing header. -/
def c1endL : List Char := "\nitem 1a. risk factors\n".toList

/-- The lower-cased TOC-avoidance document. -/
def c1docLower : List Char :=
  List.replicate 10 'x' ++ c1tocL ++ List.replicate 49966 'x' ++ c1hdrL ++ c1prose ++ c1endL

/-- A small document whose item-1 section resolves in Phase 1 (used to
instantiate universally quantified theorems). -/
def tinyDoc : List Char := "item 1. business\n".toList ++ List.replicate 600 'q'

/-- Suffix for the end-boundary counterexample: the item-2 end pattern
matches at offset 600, the item-1A end pattern at offset 900. -/
def c2tlA : List Char :=
  List.replicate 600 'q' ++ "\nitem 2. q".toList ++ List.replicate 290 'q' ++
    "\nitem 1a. q".toList

/-- Suffix whose only end-pattern match starts exactly 500 characters in. -/
def c2tlB : List Char := List.replicate 500 'q' ++ "\nitem 2. q".toList

/-- Suffix for the Phase-2 end counterexample: item markers at offsets 300
and 600. -/
def c3tl : List Char :=
  List.replicate 300 'q' ++ "\nitem 9 q".toList ++ List.replicate 291 'q' ++
    "\nitem 8 q".toList ++ List.replicate 100 'q'

/-- Body of the monotonic-fallback document: a stray item marker 300
characters in (too close for Phase 2's 500-character gate), this section's
end marker 591 characters in (close enough for Phase 1 to pick it, too
short for the minimum length), and enough trailing text that the
document-end fallback span reaches 1002 characters. -/
def mfBody : List Char :=
  List.replicate 300 'q' ++ "\nitem 9 q".toList ++ List.replicate 282 'q' ++
    "\nitem 1a. q".toList ++ List.replicate 400 'q'

/-- The monotonic-fallback document: Phase 1 fails on it (every candidate's
span is 591 characters), Phase 2 succeeds with the 1002-character span. -/
def mfDoc : List Char := "Item 1. Business\n".toList ++ mfBody

/-- A document whose only start-pattern matches are at offset 0 and which
has no line break: the span start stays at the match's end. -/
def tC4big : List Char := "item 1. business ".toList ++ List.replicate 1100 'q'

/-- Header plus a 999-character body. -/
def c5doc999 : List Char := "Item 1. Business\n".toList ++ List.replicate 999 'q'

/-- Header plus a 1000-character body. -/
def c5doc1000 : List Char := "Item 1. Business\n".toList ++ List.replicate 1000 'q'

/-- A readable document in which no section is found. -/
def noSecDoc : List Char := "hello there".toList

/-- A readable document whose item-1 section is found (with a small
threshold). -/
def goodDoc : List Char := "item 1. business\n".toList ++ List.replicate 600 'q'

/-- The claim's table-like line. -/
def numLine : List Char := "123,456   78,901   2,345".toList

/-- The claim's narrative line. -/
def revLine : List Char := "Revenue grew by 12% this year.".toList

/-- A line with three digit runs separated by single spaces and no trailing
whitespace. -/
def threeRunLine : List Char := "12 34 56".toList

/-! ## Theorems -/

theorem strLenAux_eq (s : List Char) : ∀ n, strLenAux s n = s.length + n := by
  induction s with
  | nil => intro n; simp [strLenAux]
  | cons c l ih => intro n; simp [strLenAux, ih]; omega

theorem strLen_eq (s : List Char) : strLen s = s.length := by
  simp [strLen, strLenAux_eq]

theorem eq_of_beqChars : ∀ a b : List Char, beqChars a b = true → a = b := by
  intro a
  induction a with
  | nil =>
    intro b h
    cases b with
    | nil => rfl
    | cons x xs => simp [beqChars] at h
  | cons x xs ih =>
    intro b h
    cases b with
    | nil => simp [beqChars] at h
    | cons y ys =>
      by_cases hxy : x = y
      · subst hxy
        simp only [beqChars, if_pos rfl] at h
        exact congrArg (x :: ·) (ih ys h)
      · simp [beqChars, hxy] at h

theorem eq_of_beqOptChars : ∀ a b : Option (List Char), beqOptChars a b = true → a = b := by
  intro a b h
  cases a with
  | none =>
    cases b with
    | none => rfl
    | some y => simp [beqOptChars] at h
  | some x =>
    cases b with
    | none => simp [beqOptChars] at h
    | some y => exact congrArg some (eq_of_beqChars x y (by simpa [beqOptChars] using h))

theorem findCharAux_eq_findIdx (t : Char) :
    ∀ (l : List Char) (i : Nat), findCharAux t l i = l.findIdx? (fun c => c = t) i := by
  intro l
  induction l with
  | nil => intro i; simp [findCharAux, List.findIdx?_nil]
  | cons c rest ih =>
    intro i
    by_cases hc : c = t
    · simp [findCharAux, hc, List.findIdx?_cons]
    · simp [findCharAux, hc, List.findIdx?_cons, ih]

theorem minByStart_spec :
    ∀ (l : List (Nat × Nat)) (c : Nat × Nat),
      minByStart l = some c → c ∈ l ∧ ∀ c' ∈ l, c.1 ≤ c'.1 := by
  intro l
  induction l with
  | nil => intro c h; simp [minByStart] at h
  | cons a t ih =>
    intro c h
    cases ht : minByStart t with
    | none =>
      cases t with
      | nil =>
        simp [minByStart] at h
        subst h
        exact ⟨List.mem_singleton_self a, by intro c' hc'; simp at hc'; simp [hc']⟩
      | cons b u => simp [minByStart] at ht; cases hu : minByStart u <;> simp [hu] at ht
    | some b =>
      obtain ⟨hbmem, hble⟩ := ih b ht
      simp only [minByStart, ht] at h
      by_cases hlt : b.1 < a.1
      · rw [if_pos hlt] at h
        injection h with h
        subst h
        refine ⟨List.mem_cons_of_mem a hbmem, ?_⟩
        intro c' hc'
        rcases List.mem_cons.mp hc' with h1 | h2
        · subst h1; omega
        · exact hble c' h2
      · rw [if_neg hlt] at h
        injection h with h
        subst h
        refine ⟨List.mem_cons_self a t, ?_⟩
        intro c' hc'
        rcases List.mem_cons.mp hc' with h1 | h2
        · subst h1; omega
        · have := hble c' h2; omega

theorem firstSome_sorted_spec (f : (Nat × Nat) → Option (List Char)) :
    ∀ (l : List (Nat × Nat)), List.Sorted candLE l → ∀ (r : List Char),
      firstSome f l = some r →
        ∃ c ∈ l, f c = some r ∧ ∀ c' ∈ l, c.1 < c'.1 → f c' = none := by
  intro l
  induction l with
  | nil => intro _ r h; simp [firstSome] at h
  | cons a t ih =>
    intro hs r h
    rw [List.sorted_cons] at hs
    obtain ⟨ha, hts⟩ := hs
    cases hfa : f a with
    | some b =>
      simp only [firstSome, hfa] at h
      refine ⟨a, List.mem_cons_self a t, by rw [hfa, h], ?_⟩
      intro c' hc' hlt
      rcases List.mem_cons.mp hc' with h1 | h2
      · subst h1; omega
      · have : c'.1 ≤ a.1 := ha c' h2
        omega
    | none =>
      simp only [firstSome, hfa] at h
      obtain ⟨c, hcmem, hcf, hrest⟩ := ih hts r h
      refine ⟨c, List.mem_cons_of_mem a hcmem, hcf, ?_⟩
      intro c' hc' hlt
      rcases List.mem_cons.mp hc' with h1 | h2
      · subst h1; exact hfa
      · exact hrest c' h2 hlt

/-- C8: the cleaning pipeline is total — `clean` is a function defined for
every input string and configuration (totality is intrinsic to the
embedding: every stage is a terminating function), and cleaning the empty
string yields the empty string for every configuration. -/
theorem c8_clean_total :
    (∀ (cfg : CleanCfg) (text : List Char), ∃ r : List Char, clean cfg text = r) ∧
    (∀ cfg : CleanCfg, clean cfg [] = []) :=
  ⟨fun cfg text => ⟨clean cfg text, rfl⟩, fun cfg => by simp [clean]⟩

/-- C9: the pipeline is not idempotent under the default configuration:
for the input `"form x 10-k"`, the first pass's short-token filter deletes
the token `x`, gluing `form` and `10-k` into the phrase `form 10-k`, which
the second pass's header/footer stage deletes. -/
theorem c9_not_idempotent :
    ∃ x : List Char, clean defaultCfg (clean defaultCfg x) ≠ clean defaultCfg x :=
  ⟨"form x 10-k".toList, by decide⟩

/-- C5: a resolved span is accepted iff its raw length reaches the minimum
section length, the accepted text being the span's substring trimmed of
surrounding whitespace; with threshold 1000 a 999-character body yields an
absent section and a 1000-character body yields a result. -/
theorem c5_min_length :
    (∀ (minLen : Nat) (text : List Char) (sp ep : Nat),
        acceptSpan minLen text sp ep =
          if minLen ≤ (slice text sp ep).length then some (stripStr (slice text sp ep))
          else none) ∧
    extractSection 1000 c5doc999 Sec.item1 = none ∧
    extractSection 1000 c5doc1000 Sec.item1 = some (List.replicate 1000 'q') :=
  ⟨fun minLen text sp ep => by simp [acceptSpan, strLen_eq],
    by decide, eq_of_beqOptChars _ _ (by decide)⟩

/-- C4 counterexample: the claim says the span's start is set to the
candidate's offset (the position at which the start pattern hit).  In the
code the start is the match's end offset: for `tC4big` (whose only
candidates are matches `(0, 16)` and which contains no line break) the code
uses start 16 while the claim's rule gives start 0. -/
theorem c4_counterexample :
    candidatesOf (tC4big.map lowerChar) Sec.item1 = [(0, 16), (0, 16)] ∧
    adjustStart tC4big 16 = 16 ∧
    claimStartPos tC4big (0, 16) = 0 ∧
    (16 : Nat) ≠ 0 := by
  refine ⟨by decide, by decide, by decide, by decide⟩

/-- C4 amended: the span's start is the offset just past the matched
start-pattern text (the match's end — a candidate's start offset is never
used by the span computation), and if a line break occurs within 200
characters after that position the start advances to just past it; on
`tC4big` the extracted text therefore begins after `business`, not at
`item`. -/
theorem c4_start_adjust :
    (∀ (minLen : Nat) (text tl : List Char) (sec : Sec) (a b e : Nat),
        tryCandidate minLen text tl sec (a, e) = tryCandidate minLen text tl sec (b, e)) ∧
    (∀ (text : List Char) (s : Nat),
        adjustStart text s =
          match (text.drop s).findIdx? (fun c => c = '\n') s with
          | some nl => if nl - s < 200 then nl + 1 else s
          | none => s) ∧
    extractSection 1000 tC4big Sec.item1 = some (List.replicate 1100 'q') := by
  refine ⟨fun _ _ _ _ _ _ _ => rfl, fun text s => ?_, eq_of_beqOptChars _ _ (by decide)⟩
  unfold adjustStart findNlFrom
  rw [findCharAux_eq_findIdx]

theorem extractSection_eq (minLen : Nat) (text : List Char) (sec : Sec) :
    extractSection minLen text sec =
      if candidatesOf (text.map lowerChar) sec = [] then none
      else
        match phase1 minLen text (text.map lowerChar) sec
            (candidatesOf (text.map lowerChar) sec) with
        | some r => some r
        | none => phase2 minLen text (text.map lowerChar)
            (candidatesOf (text.map lowerChar) sec) := rfl

/-- C2 counterexample: the claim says a candidate's end offset is the
nearest qualifying end-boundary-pattern match.  On `c2tlA` the nearest end
match (the item-2 pattern, 600 characters in, beyond the 500-character
gate) is ignored: the code takes the item-1A pattern first in table order
and ends 900 characters in.  On `c2tlB` the only end match starts exactly
500 characters in, which "at least 500" would accept, but the code requires
strictly more than 500 and falls back to the document end. -/
theorem c2_counterexample :
    (findEnd c2tlA 0 (endPatterns Sec.item1) 911 = 900 ∧
      claimNearestEnd c2tlA (endPatterns Sec.item1) = some 600 ∧ (900 : Nat) ≠ 600) ∧
    (findEnd c2tlB 0 (endPatterns Sec.item1) 510 = 510 ∧
      claimNearestEnd c2tlB (endPatterns Sec.item1) = some 500 ∧ (510 : Nat) ≠ 500) :=
  ⟨⟨by decide, by decide, by decide⟩, ⟨by decide, by decide, by decide⟩⟩

/-- C2 amended: for each candidate, the section's end patterns are tried in
their table order; the end offset comes from the first pattern whose
leftmost match in the suffix begins strictly more than 500 characters after
the adjusted start, and if no pattern qualifies the end defaults to the
document's end. -/
theorem c2_end_selection (tl : List Char) (sp : Nat) (docLen : Nat) :
    ∀ pats : List Matcher,
      findEnd tl sp pats docLen =
        ((pats.filterMap fun p =>
            match searchAux p tl 0 with
            | some (st, _) => if 500 < st then some (sp + st) else none
            | none => none).head?).getD docLen := by
  intro pats
  induction pats with
  | nil => rfl
  | cons p rest ih =>
    cases h : searchAux p tl 0 with
    | none => simp only [findEnd, h, List.filterMap_cons]; exact ih
    | some r =>
      obtain ⟨st, e⟩ := r
      by_cases h5 : 500 < st
      · simp only [findEnd, h, h5, if_true, List.filterMap_cons, List.head?, Option.getD]
      · simp only [findEnd, h, h5, if_false, List.filterMap_cons]
        exact ih

/-- C3 counterexample: the claim says Phase 2's end is the first item
marker at least 500 characters after the start.  On `c3tl` the first marker
overall is 300 characters in: the code rejects it (not strictly beyond 500)
and defaults to the document end (709), whereas the claim's rule would use
the marker 600 characters in. -/
theorem c3_counterexample :
    relaxedEnd 709 0 c3tl = 709 ∧ claimRelaxedEnd 709 0 c3tl = 600 ∧ (709 : Nat) ≠ 600 :=
  ⟨by decide, by decide, by decide⟩

/-- C3 amended: Phase 2 runs exactly when Phase 1 accepts no candidate (a
Phase-1 success is returned as is); it takes the first candidate with the
smallest start offset and applies the same line-skip adjustment; its end is
the first occurrence of any item-number marker, used only when it starts
strictly more than 500 characters after the start (document end otherwise);
the span is returned iff it meets the minimum length.  On the crafted
`mfDoc`, Phase 1 fails but the extraction returns Phase 2's result rather
than reporting the section absent. -/
theorem c3_fallback :
    (∀ (minLen : Nat) (text : List Char) (sec : Sec) (r : List Char),
        phase1 minLen text (text.map lowerChar) sec
            (candidatesOf (text.map lowerChar) sec) = some r →
          extractSection minLen text sec = some r) ∧
    (∀ (minLen : Nat) (text : List Char) (sec : Sec),
        candidatesOf (text.map lowerChar) sec ≠ [] →
        phase1 minLen text (text.map lowerChar) sec
            (candidatesOf (text.map lowerChar) sec) = none →
          extractSection minLen text sec =
            phase2 minLen text (text.map lowerChar)
              (candidatesOf (text.map lowerChar) sec)) ∧
    (∀ (l : List (Nat × Nat)) (c : Nat × Nat),
        minByStart l = some c → c ∈ l ∧ ∀ c' ∈ l, c.1 ≤ c'.1) ∧
    phase1 1000 mfDoc (mfDoc.map lowerChar) Sec.item1
        (candidatesOf (mfDoc.map lowerChar) Sec.item1) = none ∧
    extractSection 1000 mfDoc Sec.item1 = some mfBody := by
  refine ⟨?_, ?_, minByStart_spec, by decide, eq_of_beqOptChars _ _ (by decide)⟩
  · intro minLen text sec r h
    by_cases hc : candidatesOf (text.map lowerChar) sec = []
    · rw [hc] at h
      simp [phase1, sortDesc, List.insertionSort, firstSome] at h
    · rw [extractSection_eq, if_neg hc, h]
  · intro minLen text sec hc h
    rw [extractSection_eq, if_neg hc, h]

/-- C3 witness: on `tinyDoc` the Phase-1 hypothesis holds concretely and
the fallback theorem yields the extraction result. -/
theorem c3_witness : extractSection 10 tinyDoc Sec.item1 = some (List.replicate 600 'q') :=
  c3_fallback.1 10 tinyDoc Sec.item1 (List.replicate 600 'q')
    (eq_of_beqOptChars _ _ (by decide))

/-- C6 counterexample: the claim says an unreadable document is reported
via an error path distinct from the not-found outcome.  The code returns
the same all-`None` section dictionary in both cases: an unreadable input
is indistinguishable to the caller from a readable document in which no
section was found. -/
theorem c6_counterexample : parseFile 1000 none = parseFile 1000 (some noSecDoc) := by
  decide

/-- C6 amended: an unreadable input document yields the all-`None` section
mapping (the same value as the not-found outcome — the error is only
logged), populates no section, and does not abort processing of other
documents: a batch is the independent concatenation of its parts, and a
batch containing an unreadable document still extracts from the readable
ones. -/
theorem c6_unreadable :
    (∀ minLen : Nat, parseFile minLen none = ⟨none, none, none⟩) ∧
    (∀ (minLen : Nat) (ds1 ds2 : List (Option (List Char))),
        parseBatch minLen (ds1 ++ ds2) = parseBatch minLen ds1 ++ parseBatch minLen ds2) ∧
    parseBatch 10 [none, some goodDoc] =
      [⟨0, 0, 0, false, false, false, false⟩, ⟨600, 0, 0, true, false, false, false⟩] :=
  ⟨fun _ => rfl, fun minLen ds1 ds2 => List.map_append _ ds1 ds2, by decide⟩

theorem splitWsAux_tokens :
    ∀ (s acc : List Char), (∀ c ∈ acc, isWs c = false) →
      ∀ w ∈ splitWsAux s acc, w ≠ [] ∧ ∀ c ∈ w, isWs c = false := by
  intro s
  induction s with
  | nil =>
    intro acc hacc w hw
    by_cases ha : acc = []
    · simp [splitWsAux, ha] at hw
    · simp only [splitWsAux, if_neg ha, List.mem_singleton] at hw
      subst hw
      refine ⟨by simpa using ha, ?_⟩
      intro c hc
      exact hacc c (List.mem_reverse.mp hc)
  | cons c rest ih =>
    intro acc hacc w hw
    by_cases hws : isWs c
    · simp only [splitWsAux, if_pos hws] at hw
      by_cases ha : acc = []
      · rw [if_pos ha] at hw
        exact ih [] (by simp) w hw
      · rw [if_neg ha] at hw
        rcases List.mem_cons.mp hw with h1 | h2
        · subst h1
          refine ⟨by simpa using ha, ?_⟩
          intro d hd
          exact hacc d (List.mem_reverse.mp hd)
        · exact ih [] (by simp) w h2
    · simp only [splitWsAux, if_neg hws] at hw
      refine ih (c :: acc) ?_ w hw
      intro d hd
      rcases List.mem_cons.mp hd with h1 | h2
      · subst h1; simpa using hws
      · exact hacc d h2

theorem filterWordsAux_subset (minW : Nat) :
    ∀ (ws : List (List Char)) (w : List Char), w ∈ filterWordsAux minW ws → w ∈ ws := by
  intro ws
  induction ws with
  | nil => intro w hw; simp [filterWordsAux] at hw
  | cons v vs ih =>
    intro w hw
    rw [filterWordsAux] at hw
    split at hw
    · rcases List.mem_cons.mp hw with h1 | h2
      · rw [h1]; exact List.mem_cons_self v vs
      · exact List.mem_cons_of_mem v (ih w h2)
    · exact List.mem_cons_of_mem v (ih w hw)

theorem joinSep_mem :
    ∀ (ts : List (List Char)) (c : Char),
      c ∈ joinSep [' '] ts → c = ' ' ∨ ∃ t ∈ ts, c ∈ t := by
  intro ts
  induction ts with
  | nil => intro c hc; simp [joinSep] at hc
  | cons l ls ih =>
    intro c hc
    cases ls with
    | nil =>
      rw [joinSep] at hc
      exact Or.inr ⟨l, List.mem_cons_self l [], hc⟩
    | cons l2 ls2 =>
      rw [joinSep] at hc
      rcases List.mem_append.mp hc with h1 | h2
      · rcases List.mem_append.mp h1 with h3 | h4
        · exact Or.inr ⟨l, List.mem_cons_self l _, h3⟩
        · simp at h4
          exact Or.inl h4
      · rcases ih c h2 with h5 | ⟨t, ht, hct⟩
        · exact Or.inl h5
        · exact Or.inr ⟨t, List.mem_cons_of_mem l ht, hct⟩

theorem hasDoubleSpace_cons_false {c : Char} {rest : List Char}
    (h : hasDoubleSpace (c :: rest) = false) : hasDoubleSpace rest = false := by
  cases rest with
  | nil => rfl
  | cons d r =>
    rw [hasDoubleSpace] at h
    exact (Bool.or_eq_false_iff.mp h).2

theorem hasDoubleSpace_append_noSpace :
    ∀ (t r : List Char), (∀ c ∈ t, c ≠ ' ') →
      hasDoubleSpace (t ++ r) = hasDoubleSpace r := by
  intro t
  induction t with
  | nil => intro r _; rfl
  | cons c t' ih =>
    intro r ht
    have hc : c ≠ ' ' := ht c (List.mem_cons_self c t')
    have ht' : ∀ d ∈ t', d ≠ ' ' := fun d hd => ht d (List.mem_cons_of_mem c hd)
    cases t' with
    | nil =>
      cases r with
      | nil => rfl
      | cons d r' =>
        show hasDoubleSpace (c :: d :: r') = hasDoubleSpace (d :: r')
        rw [hasDoubleSpace]
        simp [hc]
    | cons e t'' =>
      show hasDoubleSpace (c :: e :: (t'' ++ r)) = hasDoubleSpace r
      rw [hasDoubleSpace]
      simp only [hc, decide_eq_true_eq, Bool.false_and, decide_eq_false_iff_not,
        Bool.false_or]
      simpa using ih r ht'

theorem hasDoubleSpace_space_cons {x : List Char}
    (hhead : ∀ d, x.head? = some d → d ≠ ' ') (hx : hasDoubleSpace x = false) :
    hasDoubleSpace (' ' :: x) = false := by
  cases x with
  | nil => rfl
  | cons d r =>
    have hd : d ≠ ' ' := hhead d rfl
    rw [hasDoubleSpace]
    simp [hd, hx]

theorem joinSep_noDouble :
    ∀ ts : List (List Char), (∀ t ∈ ts, t ≠ [] ∧ ∀ c ∈ t, c ≠ ' ') →
      hasDoubleSpace (joinSep [' '] ts) = false := by
  intro ts
  induction ts with
  | nil => intro _; rfl
  | cons l ls ih =>
    intro hts
    obtain ⟨hlne, hlns⟩ := hts l (List.mem_cons_self l ls)
    have hrest : ∀ t ∈ ls, t ≠ [] ∧ ∀ c ∈ t, c ≠ ' ' :=
      fun t ht => hts t (List.mem_cons_of_mem l ht)
    cases ls with
    | nil =>
      rw [joinSep]
      have := hasDoubleSpace_append_noSpace l [] hlns
      simpa using this
    | cons l2 ls2 =>
      rw [joinSep]
      rw [show l ++ [' '] ++ joinSep [' '] (l2 :: ls2) =
        l ++ (' ' :: joinSep [' '] (l2 :: ls2)) by simp]
      rw [hasDoubleSpace_append_noSpace l _ hlns]
      obtain ⟨hl2ne, hl2ns⟩ := hrest l2 (List.mem_cons_self l2 ls2)
      refine hasDoubleSpace_space_cons ?_ (ih hrest)
      intro d hd
      cases ls2 with
      | nil =>
        rw [joinSep] at hd
        cases l2 with
        | nil => exact absurd rfl hl2ne
        | cons e r =>
          simp only [List.head?] at hd
          injection hd with hd
          subst hd
          exact hl2ns e (List.mem_cons_self e r)
      | cons l3 ls3 =>
        rw [joinSep] at hd
        cases l2 with
        | nil => exact absurd rfl hl2ne
        | cons e r =>
          simp only [List.cons_append, List.head?] at hd
          injection hd with hd
          subst hd
          exact hl2ns e (List.mem_cons_self e r)

theorem hasDoubleSpace_append_right :
    ∀ (a b : List Char), hasDoubleSpace (a ++ b) = false → hasDoubleSpace b = false := by
  intro a
  induction a with
  | nil => intro b h; exact h
  | cons c a' ih => intro b h; exact ih b (hasDoubleSpace_cons_false h)

theorem hasDoubleSpace_append_left :
    ∀ (a t : List Char), hasDoubleSpace (a ++ t) = false → hasDoubleSpace a = false := by
  intro a
  induction a with
  | nil => intro t _; rfl
  | cons x a' ih =>
    intro t h
    cases a' with
    | nil => rfl
    | cons y r =>
      have h' : hasDoubleSpace (x :: y :: (r ++ t)) = false := by simpa using h
      have htail : hasDoubleSpace (y :: r) = false :=
        ih t (hasDoubleSpace_cons_false h')
      rw [hasDoubleSpace] at h'
      have h1 := (Bool.or_eq_false_iff.mp h').1
      rw [hasDoubleSpace]
      simp [h1, htail]

theorem stripStr_infix (s : List Char) : stripStr s <:+: s := by
  have h1 : (s.dropWhile fun c => isWs c) <:+ s := List.dropWhile_suffix _
  have h2 : ((s.dropWhile fun c => isWs c).reverse.dropWhile fun c => isWs c) <:+
      (s.dropWhile fun c => isWs c).reverse := List.dropWhile_suffix _
  have h3 : stripStr s <+: ((s.dropWhile fun c => isWs c).reverse).reverse :=
    List.reverse_prefix.mpr h2
  rw [List.reverse_reverse] at h3
  exact h3.isInfix.trans h1.isInfix

theorem hasDoubleSpace_of_infix {a s : List Char} (h : a <:+: s)
    (hs : hasDoubleSpace s = false) : hasDoubleSpace a = false := by
  obtain ⟨p, q, hpq⟩ := h
  subst hpq
  have hs' : hasDoubleSpace (p ++ (a ++ q)) = false := by
    rwa [← List.append_assoc]
  exact hasDoubleSpace_append_left a q (hasDoubleSpace_append_right p _ hs')

theorem singleLine_filter (minW : Nat) (t5 : List Char) :
    '\n' ∉ stripStr (filterShortWords minW t5) ∧
      '\t' ∉ stripStr (filterShortWords minW t5) ∧
      hasDoubleSpace (stripStr (filterShortWords minW t5)) = false := by
  have htok : ∀ w ∈ filterWordsAux minW (splitWs t5), w ≠ [] ∧ ∀ c ∈ w, isWs c = false := by
    intro w hw
    exact splitWsAux_tokens t5 [] (by simp) w
      (filterWordsAux_subset minW (splitWs t5) w hw)
  have hnospace : ∀ t ∈ filterWordsAux minW (splitWs t5), t ≠ [] ∧ ∀ c ∈ t, c ≠ ' ' := by
    intro t ht
    obtain ⟨hne, hws⟩ := htok t ht
    refine ⟨hne, fun c hc hsp => ?_⟩
    have := hws c hc
    subst hsp
    simp [isWs] at this
  have hjoin : hasDoubleSpace (joinSep [' '] (filterWordsAux minW (splitWs t5))) = false :=
    joinSep_noDouble _ hnospace
  have hinfx : stripStr (filterShortWords minW t5) <:+:
      joinSep [' '] (filterWordsAux minW (splitWs t5)) := by
    rw [filterShortWords]
    exact stripStr_infix _
  refine ⟨?_, ?_, hasDoubleSpace_of_infix hinfx hjoin⟩
  · intro hmem
    rcases joinSep_mem _ '\n' (hinfx.subset hmem) with h1 | ⟨t, ht, hct⟩
    · exact absurd h1 (by decide)
    · have := (htok t ht).2 '\n' hct
      simp [isWs] at this
  · intro hmem
    rcases joinSep_mem _ '\t' (hinfx.subset hmem) with h1 | ⟨t, ht, hct⟩
    · exact absurd h1 (by decide)
    · have := (htok t ht).2 '\t' hct
      simp [isWs] at this

/-- C10: the output of `clean` is a single line of single-space-separated
tokens: it contains no newline, no tab, and no two consecutive spaces,
because the always-enabled short-token filter splits on all whitespace and
rejoins the surviving (whitespace-free, nonempty) tokens with single
spaces, and the final trim only removes characters from the ends — even
though the whitespace-normalization stage itself preserves up to
`max_consecutive_newlines` blank lines. -/
theorem c10_single_line (cfg : CleanCfg) (text : List Char) :
    '\n' ∉ clean cfg text ∧ '\t' ∉ clean cfg text ∧
      hasDoubleSpace (clean cfg text) = false := by
  by_cases h0 : text = []
  · simp [clean, h0, hasDoubleSpace]
  · obtain ⟨t5, ht5⟩ :
      ∃ t5, clean cfg text = stripStr (filterShortWords cfg.minWordLength t5) :=
    ⟨_, by rw [clean, if_neg h0]⟩
    rw [ht5]
    exact singleLine_filter cfg.minWordLength t5

theorem not_digit_of_ws {c : Char} (h : isWs c = true) : isDigit c = false := by
  simp only [isWs, Bool.or_eq_true, decide_eq_true_eq] at h
  rcases h with ((((h | h) | h) | h) | h) | h <;> subst h <;> decide

theorem not_ws_of_digit {c : Char} (h : isDigit c = true) : isWs c = false := by
  cases hw : isWs c with
  | false => rfl
  | true => rw [not_digit_of_ws hw] at h; exact absurd h (by decide)

theorem runLen_append_all (p : Char → Bool) (d r : List Char)
    (hall : ∀ c ∈ d, p c = true) : runLen p (d ++ r) = d.length + runLen p r := by
  induction d with
  | nil => simp
  | cons c d' ih =>
    have hc : p c = true := hall c (List.mem_cons_self c d')
    have hall' : ∀ x ∈ d', p x = true := fun x hx => hall x (List.mem_cons_of_mem c hx)
    rw [List.cons_append, runLen, if_pos hc, ih hall', List.length_cons]
    omega

theorem runLen_head_neg (p : Char → Bool) (r : List Char)
    (h : ∀ c ∈ r.take 1, p c = false) : runLen p r = 0 := by
  cases r with
  | nil => rfl
  | cons c r' =>
    have := h c (by simp)
    simp [runLen, this]

theorem runLen_le_length (p : Char → Bool) : ∀ s : List Char, runLen p s ≤ s.length := by
  intro s
  induction s with
  | nil => simp [runLen]
  | cons c r ih =>
    by_cases hc : p c = true
    · simp [runLen, hc]; omega
    · simp [runLen, Bool.eq_false_iff.mpr hc]

theorem runLen_take (p : Char → Bool) : ∀ s : List Char, ∀ c ∈ s.take (runLen p s), p c = true := by
  intro s
  induction s with
  | nil => intro c hc; simp at hc
  | cons d r ih =>
    intro c hc
    by_cases hd : p d = true
    · rw [runLen, if_pos hd] at hc
      rw [List.take_succ_cons] at hc
      rcases List.mem_cons.mp hc with h1 | h2
      · rw [h1]; exact hd
      · exact ih c h2
    · rw [runLen, if_neg hd] at hc
      simp at hc

theorem mplus_append (p : Char → Bool) (d r : List Char) (hd : d ≠ [])
    (hall : ∀ c ∈ d, p c = true) (hr : ∀ c ∈ r.take 1, p c = false) :
    mplus p (d ++ r) = some (d.length, r) := by
  have h1 : runLen p (d ++ r) = d.length := by
    rw [runLen_append_all p d r hall, runLen_head_neg p r hr]
    omega
  have h2 : d.length ≠ 0 := by
    intro h
    exact hd (List.length_eq_zero.mp h)
  rw [show mplus p (d ++ r) =
      if runLen p (d ++ r) = 0 then none
      else some (runLen p (d ++ r), (d ++ r).drop (runLen p (d ++ r))) from rfl]
  rw [h1, if_neg h2, List.drop_left]

theorem mplus_isSome (p : Char → Bool) (s : List Char) (h : runLen p s ≠ 0) :
    (mplus p s).isSome = true := by
  simp [mplus, h]

theorem mplus_inv (p : Char → Bool) (s : List Char) (k : Nat) (r : List Char)
    (h : mplus p s = some (k, r)) :
    s = s.take k ++ r ∧ 0 < k ∧ k ≤ s.length ∧ ∀ c ∈ s.take k, p c = true := by
  by_cases h0 : runLen p s = 0
  · simp [mplus, h0] at h
  · simp only [mplus, h0, if_false, Option.some.injEq, Prod.mk.injEq] at h
    obtain ⟨hk, hr⟩ := h
    subst hk
    subst hr
    refine ⟨(List.take_append_drop (runLen p s) s).symm, Nat.pos_of_ne_zero h0,
      runLen_le_length p s, runLen_take p s⟩

theorem mseq_comp {m1 m2 : Matcher} {s r1 r2 : List Char} {k1 k2 : Nat}
    (h1 : m1 s = some (k1, r1)) (h2 : m2 r1 = some (k2, r2)) :
    mseq m1 m2 s = some (k1 + k2, r2) := by
  simp [mseq, h1, h2]

theorem mseq_isSome {m1 m2 : Matcher} {s r1 : List Char} {k1 : Nat}
    (h1 : m1 s = some (k1, r1)) (h2 : (m2 r1).isSome = true) :
    (mseq m1 m2 s).isSome = true := by
  obtain ⟨⟨k2, r2⟩, h2'⟩ := Option.isSome_iff_exists.mp h2
  rw [mseq_comp h1 h2']
  rfl

theorem mseq_inv {m1 m2 : Matcher} {s : List Char} {k : Nat} {r : List Char}
    (h : mseq m1 m2 s = some (k, r)) :
    ∃ k1 r1 k2, m1 s = some (k1, r1) ∧ m2 r1 = some (k2, r) ∧ k = k1 + k2 := by
  cases h1 : m1 s with
  | none => simp only [mseq, h1] at h; exact Option.noConfusion h
  | some v1 =>
    obtain ⟨k1, r1⟩ := v1
    cases h2 : m2 r1 with
    | none => simp only [mseq, h1, h2] at h; exact Option.noConfusion h
    | some v2 =>
      obtain ⟨k2, r2⟩ := v2
      simp only [mseq, h1, h2, Option.some.injEq, Prod.mk.injEq] at h
      obtain ⟨hk, hr⟩ := h
      exact ⟨k1, r1, k2, rfl, by rw [h2, hr], by omega⟩

theorem group_inv {s : List Char} {k : Nat} {r : List Char}
    (h : mDigitWsGroup s = some (k, r)) :
    ∃ d w, s = d ++ (w ++ r) ∧ d ≠ [] ∧ w ≠ [] ∧
      (∀ c ∈ d, isDigit c = true) ∧ (∀ c ∈ w, isWs c = true) := by
  obtain ⟨k1, r1, k2, h1, h2, _⟩ := mseq_inv h
  obtain ⟨hs1, hk1, hk1le, hall1⟩ := mplus_inv _ _ _ _ h1
  obtain ⟨hs2, hk2, hk2le, hall2⟩ := mplus_inv _ _ _ _ h2
  refine ⟨s.take k1, r1.take k2, ?_, ?_, ?_, hall1, hall2⟩
  · conv_lhs => rw [hs1]
    rw [← hs2]
  · intro hemp
    have hlen : (s.take k1).length = k1 := by
      rw [List.length_take]
      omega
    rw [hemp] at hlen
    simp at hlen
    omega
  · intro hemp
    have hlen : (r1.take k2).length = k2 := by
      rw [List.length_take]
      omega
    rw [hemp] at hlen
    simp at hlen
    omega

theorem group_exact {d w r : List Char} (hd : d ≠ []) (hw : w ≠ [])
    (hdall : ∀ c ∈ d, isDigit c = true) (hwall : ∀ c ∈ w, isWs c = true)
    (hr : ∀ c ∈ r.take 1, isWs c = false) :
    mDigitWsGroup (d ++ (w ++ r)) = some (d.length + w.length, r) := by
  have hstep1 : mplus isDigit (d ++ (w ++ r)) = some (d.length, w ++ r) := by
    refine mplus_append isDigit d (w ++ r) hd hdall ?_
    intro c hc
    cases w with
    | nil => exact absurd rfl hw
    | cons e w' =>
      simp only [List.cons_append, List.take_succ_cons, List.take_zero,
        List.mem_singleton] at hc
      rw [hc]
      exact not_digit_of_ws (hwall e (List.mem_cons_self e w'))
  have hstep2 : mplus isWs (w ++ r) = some (w.length, r) :=
    mplus_append isWs w r hw hwall hr
  exact mseq_comp hstep1 hstep2

theorem group_some_last {d w b : List Char} (hd : d ≠ []) (hw : w ≠ [])
    (hdall : ∀ c ∈ d, isDigit c = true) (hwall : ∀ c ∈ w, isWs c = true) :
    (mDigitWsGroup (d ++ (w ++ b))).isSome = true := by
  have hstep1 : mplus isDigit (d ++ (w ++ b)) = some (d.length, w ++ b) := by
    refine mplus_append isDigit d (w ++ b) hd hdall ?_
    intro c hc
    cases w with
    | nil => exact absurd rfl hw
    | cons e w' =>
      simp only [List.cons_append, List.take_succ_cons, List.take_zero,
        List.mem_singleton] at hc
      rw [hc]
      exact not_digit_of_ws (hwall e (List.mem_cons_self e w'))
  refine mseq_isSome hstep1 (mplus_isSome isWs (w ++ b) ?_)
  rw [runLen_append_all isWs w b hwall]
  cases w with
  | nil => exact absurd rfl hw
  | cons e w' => simp

theorem searchAux_isSome_iff (m : Matcher) (hnil : m [] = none) :
    ∀ (s : List Char) (i : Nat),
      (searchAux m s i).isSome = true ↔ ∃ a b, s = a ++ b ∧ (m b).isSome = true := by
  intro s
  induction s with
  | nil =>
    intro i
    constructor
    · intro h
      rw [searchAux] at h
      exact absurd h (by simp)
    · rintro ⟨a, b, hab, hb⟩
      have hbe : b = [] := (List.append_eq_nil.mp hab.symm).2
      rw [hbe, hnil] at hb
      exact absurd hb (by simp)
  | cons c rest ih =>
    intro i
    cases hm : m (c :: rest) with
    | some v =>
      constructor
      · intro _
        refine ⟨[], c :: rest, rfl, ?_⟩
        rw [hm]
        rfl
      · intro _
        rw [searchAux, hm]
        rfl
    | none =>
      constructor
      · intro h
        rw [searchAux, hm] at h
        obtain ⟨a, b, hab, hb⟩ := (ih (i + 1)).mp h
        refine ⟨c :: a, b, ?_, hb⟩
        rw [hab]
        rfl
      · rintro ⟨a, b, hab, hb⟩
        rw [searchAux, hm]
        cases a with
        | nil =>
          simp only [List.nil_append] at hab
          rw [← hab, hm] at hb
          exact absurd hb (by simp)
        | cons x a' =>
          simp only [List.cons_append, List.cons.injEq] at hab
          exact (ih (i + 1)).mpr ⟨a', b, hab.2, hb⟩

theorem threeRuns_iff (l : List Char) :
    containsMatch patThreeDigitWs l = true ↔ CodeThreeRuns l := by
  rw [containsMatch, searchAux_isSome_iff patThreeDigitWs rfl l 0]
  constructor
  · rintro ⟨a, b, hab, hb⟩
    obtain ⟨⟨k, r⟩, hmatch⟩ := Option.isSome_iff_exists.mp hb
    obtain ⟨k1, r1, k2, h1, h2, _⟩ := mseq_inv hmatch
    obtain ⟨k21, r21, k22, h21, h22, _⟩ := mseq_inv h2
    obtain ⟨d1, w1, hb1, hd1, hw1, hd1a, hw1a⟩ := group_inv h1
    obtain ⟨d2, w2, hb2, hd2, hw2, hd2a, hw2a⟩ := group_inv h21
    obtain ⟨d3, w3, hb3, hd3, hw3, hd3a, hw3a⟩ := group_inv h22
    refine ⟨a, d1, w1, d2, w2, d3, w3, r, ?_, hd1, hd2, hd3, hw1, hw2, hw3,
      hd1a, hd2a, hd3a, hw1a, hw2a, hw3a⟩
    rw [hab, hb1, hb2, hb3]
    simp [List.append_assoc]
  · rintro ⟨a, d1, w1, d2, w2, d3, w3, b, hl, hd1, hd2, hd3, hw1, hw2, hw3,
      hd1a, hd2a, hd3a, hw1a, hw2a, hw3a⟩
    refine ⟨a, d1 ++ (w1 ++ (d2 ++ (w2 ++ (d3 ++ (w3 ++ b))))), ?_, ?_⟩
    · rw [hl]; simp [List.append_assoc]
    · have hg1 : mDigitWsGroup (d1 ++ (w1 ++ (d2 ++ (w2 ++ (d3 ++ (w3 ++ b)))))) =
          some (d1.length + w1.length, d2 ++ (w2 ++ (d3 ++ (w3 ++ b)))) := by
        refine group_exact hd1 hw1 hd1a hw1a ?_
        intro c hc
        cases d2 with
        | nil => exact absurd rfl hd2
        | cons e d2' =>
          simp only [List.cons_append, List.take_succ_cons, List.take_zero,
            List.mem_singleton] at hc
          rw [hc]
          exact not_ws_of_digit (hd2a e (List.mem_cons_self e d2'))
      have hg2 : mDigitWsGroup (d2 ++ (w2 ++ (d3 ++ (w3 ++ b)))) =
          some (d2.length + w2.length, d3 ++ (w3 ++ b)) := by
        refine group_exact hd2 hw2 hd2a hw2a ?_
        intro c hc
        cases d3 with
        | nil => exact absurd rfl hd3
        | cons e d3' =>
          simp only [List.cons_append, List.take_succ_cons, List.take_zero,
            List.mem_singleton] at hc
          rw [hc]
          exact not_ws_of_digit (hd3a e (List.mem_cons_self e d3'))
      have hg3 : (mDigitWsGroup (d3 ++ (w3 ++ b))).isSome = true :=
        group_some_last hd3 hw3 hd3a hw3a
      exact mseq_isSome hg1 (mseq_isSome hg2 hg3)

theorem mchar_cons (p : Char → Bool) (c : Char) (rest : List Char) (h : p c = true) :
    mchar p (c :: rest) = some (1, rest) := by
  simp [mchar, h]

theorem mchar_inv {p : Char → Bool} {s : List Char} {k : Nat} {r : List Char}
    (h : mchar p s = some (k, r)) : ∃ c, s = c :: r ∧ p c = true := by
  cases s with
  | nil => simp [mchar] at h
  | cons c rest =>
    rw [mchar] at h
    by_cases hc : p c = true
    · rw [if_pos hc] at h
      simp only [Option.some.injEq, Prod.mk.injEq] at h
      exact ⟨c, by rw [h.2], hc⟩
    · rw [if_neg hc] at h
      exact absurd h (by simp)

theorem dots3_iff (l : List Char) :
    containsMatch patDots3 l = true ↔ Dots3Run l := by
  rw [containsMatch, searchAux_isSome_iff patDots3 rfl l 0]
  constructor
  · rintro ⟨a, b, hab, hb⟩
    obtain ⟨⟨k, r⟩, hmatch⟩ := Option.isSome_iff_exists.mp hb
    obtain ⟨k1, r1, k2, h1, h2, _⟩ := mseq_inv hmatch
    obtain ⟨k21, r21, k22, h21, h22, _⟩ := mseq_inv h2
    obtain ⟨c1, hb1, hp1⟩ := mchar_inv h1
    obtain ⟨c2, hb2, hp2⟩ := mchar_inv h21
    obtain ⟨c3, hb3, hp3⟩ := mchar_inv h22
    have e1 : c1 = '.' := by simpa using hp1
    have e2 : c2 = '.' := by simpa using hp2
    have e3 : c3 = '.' := by simpa using hp3
    exact ⟨a, r, by rw [hab, hb1, hb2, hb3, e1, e2, e3]⟩
  · rintro ⟨a, b, hl⟩
    refine ⟨a, '.' :: '.' :: '.' :: b, hl, ?_⟩
    have : patDots3 ('.' :: '.' :: '.' :: b) = some (1 + (1 + 1), b) :=
      mseq_comp (mchar_cons _ _ _ (by decide))
        (mseq_comp (mchar_cons _ _ _ (by decide)) (mchar_cons _ _ _ (by decide)))
    rw [this]
    rfl

theorem ws3_iff (l : List Char) :
    containsMatch patWs3 l = true ↔ Ws3Run l := by
  rw [containsMatch, searchAux_isSome_iff patWs3 rfl l 0]
  constructor
  · rintro ⟨a, b, hab, hb⟩
    obtain ⟨⟨k, r⟩, hmatch⟩ := Option.isSome_iff_exists.mp hb
    obtain ⟨k1, r1, k2, h1, h2, _⟩ := mseq_inv hmatch
    obtain ⟨k21, r21, k22, h21, h22, _⟩ := mseq_inv h2
    obtain ⟨c1, hb1, hp1⟩ := mchar_inv h1
    obtain ⟨c2, hb2, hp2⟩ := mchar_inv h21
    obtain ⟨c3, hb3, hp3⟩ := mchar_inv h22
    exact ⟨a, r, c1, c2, c3, by rw [hab, hb1, hb2, hb3], hp1, hp2, hp3⟩
  · rintro ⟨a, b, u, v, w, hl, hu, hv, hw⟩
    refine ⟨a, u :: v :: w :: b, hl, ?_⟩
    have : patWs3 (u :: v :: w :: b) = some (1 + (1 + 1), b) :=
      mseq_comp (mchar_cons _ _ _ hu)
        (mseq_comp (mchar_cons _ _ _ hv) (mchar_cons _ _ _ hw))
    rw [this]
    rfl

theorem malt_isSome {m1 m2 : Matcher} {s : List Char} :
    (malt m1 m2 s).isSome = true ↔ (m1 s).isSome = true ∨ (m2 s).isSome = true := by
  cases h : m1 s <;> simp [malt, h]

theorem dotsOrWs_iff (l : List Char) :
    containsMatch patDotsOrWs l = true ↔ (Dots3Run l ∨ Ws3Run l) := by
  rw [← dots3_iff, ← ws3_iff]
  rw [containsMatch, searchAux_isSome_iff patDotsOrWs rfl l 0,
    containsMatch, searchAux_isSome_iff patDots3 rfl l 0,
    containsMatch, searchAux_isSome_iff patWs3 rfl l 0]
  constructor
  · rintro ⟨a, b, hab, hb⟩
    rcases malt_isSome.mp hb with h | h
    · exact Or.inl ⟨a, b, hab, h⟩
    · exact Or.inr ⟨a, b, hab, h⟩
  · rintro (⟨a, b, hab, hb⟩ | ⟨a, b, hab, hb⟩)
    · exact ⟨a, b, hab, malt_isSome.mpr (Or.inl hb)⟩
    · exact ⟨a, b, hab, malt_isSome.mpr (Or.inr hb)⟩

theorem keepLines_eq_filter :
    ∀ ls : List (List Char), keepLines ls = ls.filter (fun l => !tableRowLike l) := by
  intro ls
  induction ls with
  | nil => rfl
  | cons l rest ih => cases h : tableRowLike l <;> simp [keepLines, h, List.filter_cons, ih]

/-- C7 counterexample: the claim says the stage drops exactly the lines
containing three or more runs of digits separated by whitespace (among
other conditions).  The line `"12 34 56"` has three digit runs separated by
whitespace, but `(\d+\s+){3,}` needs each run to be followed by whitespace,
so the code's predicate is false and the stage keeps the line. -/
theorem c7_counterexample :
    SpecThreeRuns threeRunLine ∧ tableRowLike threeRunLine = false ∧
      removeTables threeRunLine = threeRunLine :=
  ⟨⟨[], "12".toList, " ".toList, "34".toList, " ".toList, "56".toList, [],
      by decide, by decide, by decide, by decide, by decide, by decide,
      by decide, by decide, by decide, by decide⟩,
    by decide, by decide⟩

/-- C7 amended: with table removal enabled the stage drops exactly the
lines satisfying the code's three conditions — three or more digit runs
each followed by a whitespace run, or a run of three or more dots or of
three or more whitespace characters co-occurring with a digit, or more
than 0.4·length punctuation characters (`tableRowLike`, whose ratio test
`5·count > 2·len` decides the Python float comparison exactly for all
realistic line lengths); the run conditions are characterised
declaratively, and on the claim's examples the numeric line is removed by
normalization while the narrative line is preserved. -/
theorem c7_table_rows :
    (∀ text, removeTables text =
        joinSep ['\n'] ((splitNl text).filter (fun l => !tableRowLike l))) ∧
    (∀ l, containsMatch patThreeDigitWs l = true ↔ CodeThreeRuns l) ∧
    (∀ l, containsMatch patDotsOrWs l = true ↔ (Dots3Run l ∨ Ws3Run l)) ∧
    (∀ l : List Char, l.any isDigit = true ↔ ∃ c ∈ l, isDigit c = true) ∧
    removeTables numLine = [] ∧ clean defaultCfg numLine = [] ∧
    removeTables revLine = revLine ∧ clean defaultCfg revLine = revLine :=
  ⟨fun text => by rw [removeTables, keepLines_eq_filter],
    threeRuns_iff, dotsOrWs_iff, fun l => List.any_eq_true,
    by decide, by decide, by decide, eq_of_beqChars _ _ (by decide)⟩

/-- Dropping past a left factor of known length. -/
theorem drop_append_len {A B : List Char} {n k : Nat} (h : A.length = n) :
    (A ++ B).drop (n + k) = B.drop k := by
  subst h
  exact List.drop_append k

/-- Taking exactly a left factor of known length. -/
theorem take_append_len {A B : List Char} {n : Nat} (h : A.length = n) :
    (A ++ B).take n = A := by
  subst h
  exact List.take_left A B

/-- One scanning step of `finditer` past a position where the matcher
fails. -/
theorem finditerAux_cons_none (m : Matcher) (c : Char) (rest : List Char) (i : Nat)
    (h : m (c :: rest) = none) :
    finditerAux m (c :: rest) i 0 = finditerAux m rest (i + 1) 0 := by
  rw [show finditerAux m (c :: rest) i 0 =
      (match m (c :: rest) with
        | some (k, _) => (i, i + k) :: finditerAux m rest (i + 1) (k - 1)
        | none => finditerAux m rest (i + 1) 0) from rfl, h]

/-- `finditer` scans across a run of a character on which the matcher
always fails, collecting nothing. -/
theorem finditerAux_skip (m : Matcher) (x : Char)
    (hx : ∀ l : List Char, m (x :: l) = none) :
    ∀ (n : Nat) (B : List Char) (i : Nat),
      finditerAux m (List.replicate n x ++ B) i 0 = finditerAux m B (i + n) 0 := by
  intro n
  induction n with
  | zero => intro B i; simp [List.replicate]
  | succ n ih =>
    intro B i
    rw [List.replicate_succ, List.cons_append,
      finditerAux_cons_none m x (List.replicate n x ++ B) i (hx _), ih B (i + 1),
      show i + 1 + n = i + (n + 1) from by omega]

/-- One scanning step of `re.search` past a position where the matcher
fails. -/
theorem searchAux_cons_none (m : Matcher) (c : Char) (rest : List Char) (i : Nat)
    (h : m (c :: rest) = none) :
    searchAux m (c :: rest) i = searchAux m rest (i + 1) := by
  rw [show searchAux m (c :: rest) i =
      (match m (c :: rest) with
        | some (k, _) => some (i, i + k)
        | none => searchAux m rest (i + 1)) from rfl, h]

/-- `re.search` scans across a run of a character on which the matcher
always fails. -/
theorem searchAux_skip (m : Matcher) (x : Char)
    (hx : ∀ l : List Char, m (x :: l) = none) :
    ∀ (n : Nat) (B : List Char) (i : Nat),
      searchAux m (List.replicate n x ++ B) i = searchAux m B (i + n) := by
  intro n
  induction n with
  | zero => intro B i; simp [List.replicate]
  | succ n ih =>
    intro B i
    rw [List.replicate_succ, List.cons_append,
      searchAux_cons_none m x (List.replicate n x ++ B) i (hx _), ih B (i + 1),
      show i + 1 + n = i + (n + 1) from by omega]

theorem patI1_0_no_x : ∀ l : List Char, patI1_0 ('x' :: l) = none := fun _ => rfl

theorem patI1_1_no_x : ∀ l : List Char, patI1_1 ('x' :: l) = none := fun _ => rfl

theorem patI1_2_no_x : ∀ l : List Char, patI1_2 ('x' :: l) = none := fun _ => rfl

theorem patI1_3_no_x : ∀ l : List Char, patI1_3 ('x' :: l) = none := fun _ => rfl

theorem patI1_4_no_x : ∀ l : List Char, patI1_4 ('x' :: l) = none := fun _ => rfl

theorem patI1_0_no_q : ∀ l : List Char, patI1_0 ('q' :: l) = none := fun _ => rfl

theorem patI1_1_no_q : ∀ l : List Char, patI1_1 ('q' :: l) = none := fun _ => rfl

theorem patI1_2_no_q : ∀ l : List Char, patI1_2 ('q' :: l) = none := fun _ => rfl

theorem patI1_3_no_q : ∀ l : List Char, patI1_3 ('q' :: l) = none := fun _ => rfl

theorem patI1_4_no_q : ∀ l : List Char, patI1_4 ('q' :: l) = none := fun _ => rfl

theorem endPat1a_no_q : ∀ l : List Char, endPat "1a".toList ('q' :: l) = none :=
  fun _ => rfl

/-- Scanning the main item-1 pattern through the TOC line records the match
at offset 10. -/
theorem fi_toc_p0 (X : List Char) :
    finditerAux patI1_0 (c1tocL ++ X) 10 0 = (10, 26) :: finditerAux patI1_0 X 33 0 := rfl

theorem fi_toc_p1 (X : List Char) :
    finditerAux patI1_1 (c1tocL ++ X) 10 0 = finditerAux patI1_1 X 33 0 := rfl

theorem fi_toc_p2 (X : List Char) :
    finditerAux patI1_2 (c1tocL ++ X) 10 0 = (10, 26) :: finditerAux patI1_2 X 33 0 := rfl

theorem fi_toc_p3 (X : List Char) :
    finditerAux patI1_3 (c1tocL ++ X) 10 0 = finditerAux patI1_3 X 33 0 := rfl

theorem fi_toc_p4 (X : List Char) :
    finditerAux patI1_4 (c1tocL ++ X) 10 0 = finditerAux patI1_4 X 33 0 := rfl

/-- Scanning the main item-1 pattern through the real header records the
match at offset 50000. -/
theorem fi_hdr_p0 (X : List Char) :
    finditerAux patI1_0 (c1hdrL ++ X) 49999 0 =
      (50000, 50016) :: finditerAux patI1_0 X 50017 0 := rfl

theorem fi_hdr_p1 (X : List Char) :
    finditerAux patI1_1 (c1hdrL ++ X) 49999 0 = finditerAux patI1_1 X 50017 0 := rfl

theorem fi_hdr_p2 (X : List Char) :
    finditerAux patI1_2 (c1hdrL ++ X) 49999 0 =
      (50000, 50016) :: finditerAux patI1_2 X 50017 0 := rfl

theorem fi_hdr_p3 (X : List Char) :
    finditerAux patI1_3 (c1hdrL ++ X) 49999 0 = finditerAux patI1_3 X 50017 0 := rfl

theorem fi_hdr_p4 (X : List Char) :
    finditerAux patI1_4 (c1hdrL ++ X) 49999 0 = finditerAux patI1_4 X 50017 0 := rfl

/-- All matches of the main item-1 pattern in the TOC-avoidance document:
the TOC line and the real header. -/
theorem c1_fi0 : finditer patI1_0 c1docLower = [(10, 26), (50000, 50016)] := by
  unfold finditer c1docLower c1prose
  simp only [List.append_assoc]
  rw [finditerAux_skip patI1_0 'x' patI1_0_no_x 10, Nat.zero_add, fi_toc_p0,
    finditerAux_skip patI1_0 'x' patI1_0_no_x 49966,
    show (33 + 49966 : Nat) = 49999 from rfl, fi_hdr_p0,
    finditerAux_skip patI1_0 'q' patI1_0_no_q 2000]
  rfl

theorem c1_fi1 : finditer patI1_1 c1docLower = [] := by
  unfold finditer c1docLower c1prose
  simp only [List.append_assoc]
  rw [finditerAux_skip patI1_1 'x' patI1_1_no_x 10, Nat.zero_add, fi_toc_p1,
    finditerAux_skip patI1_1 'x' patI1_1_no_x 49966,
    show (33 + 49966 : Nat) = 49999 from rfl, fi_hdr_p1,
    finditerAux_skip patI1_1 'q' patI1_1_no_q 2000]
  rfl

theorem c1_fi2 : finditer patI1_2 c1docLower = [(10, 26), (50000, 50016)] := by
  unfold finditer c1docLower c1prose
  simp only [List.append_assoc]
  rw [finditerAux_skip patI1_2 'x' patI1_2_no_x 10, Nat.zero_add, fi_toc_p2,
    finditerAux_skip patI1_2 'x' patI1_2_no_x 49966,
    show (33 + 49966 : Nat) = 49999 from rfl, fi_hdr_p2,
    finditerAux_skip patI1_2 'q' patI1_2_no_q 2000]
  rfl

theorem c1_fi3 : finditer patI1_3 c1docLower = [] := by
  unfold finditer c1docLower c1prose
  simp only [List.append_assoc]
  rw [finditerAux_skip patI1_3 'x' patI1_3_no_x 10, Nat.zero_add, fi_toc_p3,
    finditerAux_skip patI1_3 'x' patI1_3_no_x 49966,
    show (33 + 49966 : Nat) = 49999 from rfl, fi_hdr_p3,
    finditerAux_skip patI1_3 'q' patI1_3_no_q 2000]
  rfl

theorem c1_fi4 : finditer patI1_4 c1docLower = [] := by
  unfold finditer c1docLower c1prose
  simp only [List.append_assoc]
  rw [finditerAux_skip patI1_4 'x' patI1_4_no_x 10, Nat.zero_add, fi_toc_p4,
    finditerAux_skip patI1_4 'x' patI1_4_no_x 49966,
    show (33 + 49966 : Nat) = 49999 from rfl, fi_hdr_p4,
    finditerAux_skip patI1_4 'q' patI1_4_no_q 2000]
  rfl

/-- The item-1 candidate list of the TOC-avoidance document. -/
theorem c1_cands :
    candidatesOf c1docLower Sec.item1 =
      [(10, 26), (50000, 50016), (10, 26), (50000, 50016)] := by
  unfold candidatesOf
  rw [show startPatterns Sec.item1 = [patI1_0, patI1_1, patI1_2, patI1_3, patI1_4]
    from rfl]
  simp only [List.map_cons, List.map_nil]
  rw [c1_fi0, c1_fi1, c1_fi2, c1_fi3, c1_fi4]
  rfl

/-- Lower-casing the TOC-avoidance document segment by segment. -/
theorem c1doc_lower : c1doc.map lowerChar = c1docLower := by
  unfold c1doc c1docLower c1prose
  simp only [List.map_append, List.map_replicate]
  rw [show lowerChar 'x' = 'x' from rfl, show lowerChar 'q' = 'q' from rfl,
    show List.map lowerChar c1toc = c1tocL from by decide,
    show List.map lowerChar c1hdr = c1hdrL from by decide,
    show List.map lowerChar c1end = c1endL from by decide]

/-- The document suffix starting at the real header's trailing newline. -/
theorem c1doc_drop_50016 : c1doc.drop 50016 = '\n' :: (c1prose ++ c1end) := by
  have h10 : (List.replicate 10 'x').length = 10 := List.length_replicate 10 'x'
  have h23 : c1toc.length = 23 := rfl
  have h49966 : (List.replicate 49966 'x').length = 49966 :=
    List.length_replicate 49966 'x'
  unfold c1doc c1prose
  simp only [List.append_assoc]
  rw [show (50016 : Nat) = 10 + 50006 from rfl, drop_append_len h10,
    show (50006 : Nat) = 23 + 49983 from rfl, drop_append_len h23,
    show (49983 : Nat) = 49966 + 17 from rfl, drop_append_len h49966]
  rfl

/-- The document suffix starting at the section body. -/
theorem c1doc_drop_50017 : c1doc.drop 50017 = c1prose ++ c1end := by
  have h10 : (List.replicate 10 'x').length = 10 := List.length_replicate 10 'x'
  have h23 : c1toc.length = 23 := rfl
  have h49966 : (List.replicate 49966 'x').length = 49966 :=
    List.length_replicate 49966 'x'
  unfold c1doc c1prose
  simp only [List.append_assoc]
  rw [show (50017 : Nat) = 10 + 50007 from rfl, drop_append_len h10,
    show (50007 : Nat) = 23 + 49984 from rfl, drop_append_len h23,
    show (49984 : Nat) = 49966 + 18 from rfl, drop_append_len h49966]
  rfl

/-- The lower-cased document suffix starting at the section body. -/
theorem c1docLower_drop_50017 : c1docLower.drop 50017 = c1prose ++ c1endL := by
  have h10 : (List.replicate 10 'x').length = 10 := List.length_replicate 10 'x'
  have h23 : c1tocL.length = 23 := rfl
  have h49966 : (List.replicate 49966 'x').length = 49966 :=
    List.length_replicate 49966 'x'
  unfold c1docLower c1prose
  simp only [List.append_assoc]
  rw [show (50017 : Nat) = 10 + 50007 from rfl, drop_append_len h10,
    show (50007 : Nat) = 23 + 49984 from rfl, drop_append_len h23,
    show (49984 : Nat) = 49966 + 18 from rfl, drop_append_len h49966]
  rfl

/-- Dropping a whitespace prefix from a run of a non-whitespace character
does nothing. -/
theorem dropWhile_replicate_neg (p : Char → Bool) (x : Char) (hx : p x = false)
    (n : Nat) : (List.replicate n x).dropWhile p = List.replicate n x := by
  cases n with
  | zero => rfl
  | succ n => rw [List.replicate_succ, List.dropWhile_cons, hx]; simp

/-- Stripping a run of a non-whitespace character does nothing. -/
theorem stripStr_replicate (n : Nat) (x : Char) (hx : isWs x = false) :
    stripStr (List.replicate n x) = List.replicate n x := by
  unfold stripStr
  rw [dropWhile_replicate_neg (fun c => isWs c) x hx n, List.reverse_replicate,
    dropWhile_replicate_neg (fun c => isWs c) x hx n, List.reverse_replicate]

theorem c1prose_strip : stripStr c1prose = c1prose := by
  unfold c1prose
  exact stripStr_replicate 2000 'q' rfl

/-- The line-skip adjustment on the header candidate: the newline 0
characters past the match end moves the start to 50017. -/
theorem c1_adjust : adjustStart c1doc 50016 = 50017 := by
  unfold adjustStart findNlFrom
  rw [c1doc_drop_50016]
  rfl

/-- The first end pattern (item 1A) matches 2000 characters into the
section body suffix. -/
theorem c1_search1a :
    searchAux (endPat "1a".toList) (c1prose ++ c1endL) 0 = some (2000, 2010) := by
  unfold c1prose
  rw [searchAux_skip (endPat "1a".toList) 'q' endPat1a_no_q 2000, Nat.zero_add]
  rfl

/-- End resolution for the header candidate: the item-1A match 2000
characters in clears the 500-character gate, ending the span at 52017. -/
theorem c1_findEnd (docLen : Nat) :
    findEnd (c1prose ++ c1endL) 50017 (endPatterns Sec.item1) docLen = 52017 := by
  rw [show endPatterns Sec.item1 =
    [endPat "1a".toList, endPat "1b".toList, endPat "2".toList] from rfl]
  simp only [findEnd, c1_search1a]
  norm_num

/-- Phase 1 on the header candidate of the TOC-avoidance document yields
the 2000-character body. -/
theorem c1_try :
    tryCandidate 1000 c1doc c1docLower Sec.item1 (50000, 50016) = some c1prose := by
  have h2000 : c1prose.length = 2000 := List.length_replicate 2000 'q'
  simp only [tryCandidate]
  rw [c1_adjust, c1docLower_drop_50017, c1_findEnd]
  simp only [acceptSpan, slice]
  rw [c1doc_drop_50017, show (52017 - 50017 : Nat) = 2000 from rfl,
    take_append_len h2000, strLen_eq, h2000,
    if_pos (by norm_num : (1000 : Nat) ≤ 2000), c1prose_strip]

/-- The first candidate already succeeding determines the result of the
candidate loop. -/
theorem firstSome_cons_some {f : (Nat × Nat) → Option (List Char)} {a : Nat × Nat}
    {l : List (Nat × Nat)} {b : List Char} (h : f a = some b) :
    firstSome f (a :: l) = some b := by
  unfold firstSome
  rw [h]

/-- A successful Phase 1 on a nonempty candidate list is the extraction
result. -/
theorem extract_of_phase1 (minLen : Nat) (text : List Char) (sec : Sec)
    (r : List Char) (hne : candidatesOf (text.map lowerChar) sec ≠ [])
    (h : phase1 minLen text (text.map lowerChar) sec
      (candidatesOf (text.map lowerChar) sec) = some r) :
    extractSection minLen text sec = some r := by
  rw [extractSection_eq, if_neg hne, h]

/-- The TOC-avoidance extraction: the offset-50000 candidate is tried first
and wins, returning the prose body. -/
theorem c1_extract : extractSection 1000 c1doc Sec.item1 = some c1prose := by
  have hp : phase1 1000 c1doc (c1doc.map lowerChar) Sec.item1
      (candidatesOf (c1doc.map lowerChar) Sec.item1) = some c1prose := by
    rw [c1doc_lower, c1_cands]
    unfold phase1
    rw [show sortDesc [(10, 26), (50000, 50016), (10, 26), (50000, 50016)] =
      [(50000, 50016), (50000, 50016), (10, 26), (10, 26)] from by decide]
    exact firstSome_cons_some c1_try
  have hne : candidatesOf (c1doc.map lowerChar) Sec.item1 ≠ [] := by
    rw [c1doc_lower, c1_cands]
    decide
  exact extract_of_phase1 1000 c1doc Sec.item1 c1prose hne hp

/-- C1: Phase 1 sorts the start-pattern candidates into descending start
order (a stable descending sort: sorted under `candLE` and a permutation of
the candidate list) and returns the span of the first candidate that yields
a section meeting the minimum length — whenever Phase 1 succeeds, some
candidate produced the result and every candidate with a strictly larger
start offset failed.  On the TOC-avoidance document (TOC line at offset 10,
real header at offset 50000, 2000 characters of prose, then the item-1A
header) the item-1 candidates sit at offsets 10 and 50000, and extraction
returns the prose following the offset-50000 header, not the TOC line. -/
theorem c1_toc_avoidance :
    (∀ cands : List (Nat × Nat),
        List.Sorted candLE (sortDesc cands) ∧ (sortDesc cands).Perm cands) ∧
    (∀ (minLen : Nat) (text textLower : List Char) (sec : Sec)
        (cands : List (Nat × Nat)) (r : List Char),
        phase1 minLen text textLower sec cands = some r →
          ∃ c ∈ cands, tryCandidate minLen text textLower sec c = some r ∧
            ∀ c' ∈ cands, c.1 < c'.1 →
              tryCandidate minLen text textLower sec c' = none) ∧
    (candidatesOf (c1doc.map lowerChar) Sec.item1).map Prod.fst =
      [10, 50000, 10, 50000] ∧
    extractSection 1000 c1doc Sec.item1 = some c1prose := by
  refine ⟨fun cands =>
      ⟨List.sorted_insertionSort candLE cands, List.perm_insertionSort candLE cands⟩,
    ?_, by rw [c1doc_lower, c1_cands]; rfl, c1_extract⟩
  intro minLen text textLower sec cands r h
  unfold phase1 at h
  have hsorted : List.Sorted candLE (sortDesc cands) :=
    List.sorted_insertionSort candLE cands
  have hperm : (sortDesc cands).Perm cands := List.perm_insertionSort candLE cands
  obtain ⟨c, hcmem, hcf, hrest⟩ :=
    firstSome_sorted_spec (tryCandidate minLen text textLower sec)
      (sortDesc cands) hsorted r h
  refine ⟨c, hperm.subset hcmem, hcf, ?_⟩
  intro c' hc' hlt
  exact hrest c' (hperm.mem_iff.mpr hc') hlt

theorem c1_witness :
    ∃ c ∈ candidatesOf (tinyDoc.map lowerChar) Sec.item1,
      tryCandidate 10 tinyDoc (tinyDoc.map lowerChar) Sec.item1 c =
          some (List.replicate 600 'q') ∧
        ∀ c' ∈ candidatesOf (tinyDoc.map lowerChar) Sec.item1, c.1 < c'.1 →
          tryCandidate 10 tinyDoc (tinyDoc.map lowerChar) Sec.item1 c' = none :=
  c1_toc_avoidance.2.1 10 tinyDoc (tinyDoc.map lowerChar) Sec.item1
    (candidatesOf (tinyDoc.map lowerChar) Sec.item1) (List.replicate 600 'q')
    (eq_of_beqOptChars _ _ (by decide))

end CorpText
